import Mathlib

/-!
Verification development for the Chartbot conversational query pipeline.

The Python sources (`data_utils.py`, `chatbot_logic.py`) are shallowly
embedded below.  Conventions of the embedding:

* pandas DataFrames become `List ChartEntry`; the dataset is a parameter of
  every function that reads the module-level `df` global.
* Python `str` becomes `String` / `List Char`.  the Python `str.lower`,
  `str.strip`, `str.isdigit` and whole-word regex substitution are modelled
  on ASCII characters (`Char.toLower`, `Char.isWhitespace`, `Char.isDigit`,
  `Char.isAlphanum`), matching the behaviour of the source on the ASCII
  queries it is designed for.
* `fuzzywuzzy.fuzz.partial_ratio` is an external third-party scorer; it is
  passed in as an opaque parameter `fz : String → String → Nat`, exactly as
  the FLAN-T5 model output is passed in as `flanOut : String → String`.
* the Python stable `list.sort` and pandas `sort_values` are modelled by a
  stable structural insertion sort (`insSort`); pandas tie order is an
  implementation detail the spec leaves unspecified.
* The regexes of `enhanced_query_parser` are hand-compiled, pattern by
  pattern, into backtracking CPS matchers with `re.search` semantics
  (leftmost match position, lazy `(.+?)` groups, greedy quantifiers,
  ordered alternation, `.` not matching a newline).
-/

namespace Chartbot

/-! ## Character and string helpers -/

/-- Python `str.lower()` on one character (ASCII range, as in `Char.toLower`). -/
def lowerC (c : Char) : Char := c.toLower

/-- Python `str.lower()`: lower-case every character. -/
def lowerL (cs : List Char) : List Char := cs.map lowerC

/-- Python `str.lower()` on a `String`. -/
def lowerS (s : String) : String := ⟨lowerL s.data⟩

/-- Whitespace test used for the Python `str.strip` and regex `\s`. -/
def isWS (c : Char) : Bool := c.isWhitespace

/-- Python `str.strip()`: drop leading and trailing whitespace. -/
def pyStripL (cs : List Char) : List Char :=
  ((cs.dropWhile isWS).reverse.dropWhile isWS).reverse

/-- Python `str.strip()` on a `String`. -/
def pyStrip (s : String) : String := ⟨pyStripL s.data⟩

/-- Whether `nd` is a prefix of `hay` (Boolean, structural). -/
def startsWithL : List Char → List Char → Bool
  | [], _ => true
  | _ :: _, [] => false
  | c :: nd, d :: hs => c == d && startsWithL nd hs

/-- Substring containment (`needle` occurs somewhere in `hay`).  Models the
substring reading of pandas `Series.str.contains` for plain (non-regex-
special) needles, which is how the source uses it. -/
def containsL : List Char → List Char → Bool
  | nd, [] => startsWithL nd []
  | nd, c :: t => startsWithL nd (c :: t) || containsL nd t

/-- Case-insensitive containment, as in `str.contains(x, case=False)`. -/
def containsCI (hay needle : String) : Bool :=
  containsL (lowerL needle.data) (lowerL hay.data)

/-- Python `int()` on a non-empty decimal digit string. -/
def toNatL (cs : List Char) : Nat :=
  cs.foldl (fun a c => a * 10 + (c.toNat - 48)) 0

/-- Python `str.isdigit()` (ASCII digits): non-empty and all digits. -/
def pyIsDigits (s : String) : Bool :=
  !s.data.isEmpty && s.data.all Char.isDigit

/-- Code-point lexicographic strict order on character lists (Python `<`
on strings, used by pandas when sorting group keys). -/
def ltCharsB : List Char → List Char → Bool
  | [], [] => false
  | [], _ :: _ => true
  | _ :: _, [] => false
  | a :: as, b :: bs => a.toNat < b.toNat || (a == b && ltCharsB as bs)

/-- Lexicographic `≤` on `(song, artist)` keys, Python-string style. -/
def keyLe (a b : String × String) : Bool :=
  ltCharsB a.1.data b.1.data ||
    (a.1 == b.1 && (ltCharsB a.2.data b.2.data || a.2 == b.2))

/-! ## A stable structural sort

the Python `list.sort` is stable, and pandas `sort_values` guarantees only
the sortedness of the result; both are modelled by a stable insertion
sort that the kernel can evaluate. -/

/-- Insert `a` into `l` before the first element `b` with `le a b`. -/
def insertLe (le : α → α → Bool) (a : α) : List α → List α
  | [] => [a]
  | b :: bs => if le a b then a :: b :: bs else b :: insertLe le a bs

/-- Stable insertion sort by the Boolean relation `le`. -/
def insSort (le : α → α → Bool) (l : List α) : List α :=
  l.foldr (insertLe le) []

/-! ## Data model

One `ChartEntry` per row of the cleaned Billboard dataset (`date, rank,
song, artist, last-week, peak-rank, weeks-on-board, year`); the date is
modelled as an ordinal number, which the embedded functions never inspect. -/

structure ChartEntry where
  date : Nat
  rank : Nat
  song : String
  artist : String
  lastWeek : Nat
  peakRank : Nat
  weeksOnBoard : Nat
  year : Nat
deriving DecidableEq

/-- A per-`(song, artist)` aggregate, as produced by the
`groupby`-and-`agg` calls over (song, artist): minimum `rank`, minimum
`peak-rank`, maximum `weeks-on-board`, first `last-week` and first `year`. -/
structure SongAgg where
  song : String
  artist : String
  rank : Nat
  peakRank : Nat
  weeks : Nat
  lastWeek : Nat
  year : Nat
deriving DecidableEq

/-- The rows of `rows` belonging to group key `k`. -/
def groupRows (rows : List ChartEntry) (k : String × String) : List ChartEntry :=
  rows.filter (fun e => e.song == k.1 && e.artist == k.2)

/-- Reduce one group to its `SongAgg` (min rank, min peak-rank, max weeks,
first last-week, first year).  The `[]` case is unreachable for keys drawn
from `rows`. -/
def aggregate (rows : List ChartEntry) (k : String × String) : SongAgg :=
  match groupRows rows k with
  | [] => ⟨k.1, k.2, 0, 0, 0, 0, 0⟩
  | e :: es =>
      { song := k.1, artist := k.2,
        rank := es.foldl (fun a r => Nat.min a r.rank) e.rank,
        peakRank := es.foldl (fun a r => Nat.min a r.peakRank) e.peakRank,
        weeks := es.foldl (fun a r => Nat.max a r.weeksOnBoard) e.weeksOnBoard,
        lastWeek := e.lastWeek,
        year := e.year }

/-- The distinct `(song, artist)` keys of `rows` in pandas `groupby` order
(`sort=True`: keys sorted lexicographically). -/
def groupKeys (rows : List ChartEntry) : List (String × String) :=
  insSort keyLe ((rows.map (fun e => (e.song, e.artist))).dedup)

/-- Source `groupby` on (song, artist) keys with `agg` and `reset_index` over `rows`. -/
def groupAgg (rows : List ChartEntry) : List SongAgg :=
  (groupKeys rows).map (aggregate rows)

/-! ## Aggregation engine (`data_utils.get_top_songs_by_year`,
`chatbot_logic.get_decade_songs`) -/

/-- Source `get_top_songs_by_year(year, n)`: filter to the year, aggregate per
`(song, artist)`, sort by best (minimum) rank, truncate to `n`. -/
def getTopSongsByYear (rows : List ChartEntry) (year : Nat) (n : Nat) :
    List SongAgg :=
  if (rows.filter (fun e => e.year == year)).isEmpty then []
  else ((insSort (fun a b => a.rank ≤ b.rank)
    (groupAgg (rows.filter (fun e => e.year == year)))).take n)

/-- Source `get_decade_songs(decade_start, n)`: same aggregation over the ten-year
span `[decade_start, decade_start + 9]`. -/
def getDecadeSongs (rows : List ChartEntry) (decadeStart : Nat) (n : Nat) :
    List SongAgg :=
  if (rows.filter (fun e => decadeStart ≤ e.year && e.year ≤ decadeStart + 9)).isEmpty
  then []
  else ((insSort (fun a b => a.rank ≤ b.rank)
    (groupAgg (rows.filter
      (fun e => decadeStart ≤ e.year && e.year ≤ decadeStart + 9)))).take n)

/-- Source `validate_year_range`: the dataset year minimum <= year <= the dataset year maximum. -/
def minYear (rows : List ChartEntry) : Nat :=
  match rows.map (·.year) with
  | [] => 0
  | a :: t => t.foldl Nat.min a

def maxYear (rows : List ChartEntry) : Nat :=
  match rows.map (·.year) with
  | [] => 0
  | a :: t => t.foldl Nat.max a

def validateYearRange (rows : List ChartEntry) (year : Nat) : Bool :=
  minYear rows ≤ year && year ≤ maxYear rows

/-! ## Song match engine (`data_utils.get_song_matches_with_duration`) -/

inductive MatchType where
  | exact
  | contains
  | fuzzy
deriving DecidableEq

/-- Priority rank of a tier (exact before contains before fuzzy). -/
def tierRank : MatchType → Nat
  | .exact => 0
  | .contains => 1
  | .fuzzy => 2

structure MatchResult where
  song : String
  artist : String
  weeksOnChart : Nat
  bestRank : Nat
  peakRank : Nat
  year : Nat
  matchScore : Nat
  matchType : MatchType
deriving DecidableEq

/-- Build one result dictionary from a `unique_songs` row. -/
def mkRes (r : SongAgg) (score : Nat) (ty : MatchType) : MatchResult :=
  { song := r.song, artist := r.artist, weeksOnChart := r.weeks,
    bestRank := r.rank, peakRank := r.peakRank, year := r.year,
    matchScore := score, matchType := ty }

/-- The `unique_songs` aggregate table, after the optional artist filter
(`str.contains(artist_name, case=False)` on the artist column; an empty
artist string is falsy in Python and disables the filter). -/
def fmUnique (rows : List ChartEntry) (artistName : Option String) :
    List SongAgg :=
  let us := groupAgg rows
  match artistName with
  | none => us
  | some a =>
      if a = "" then us
      else us.filter (fun r => containsCI r.artist (pyStrip a))

/-- Tier 1: exact case-insensitive title equality, `match_score = 100`. -/
def fmExact (us : List SongAgg) (q : String) : List MatchResult :=
  (us.filter (fun r => lowerS r.song == lowerS q)).map (fun r => mkRes r 100 .exact)

/-- Tier 2 candidates: case-insensitive containment, excluding exact
matches, `match_score = 85`. -/
def fmContains (us : List SongAgg) (q : String) : List MatchResult :=
  (us.filter (fun r => containsCI r.song q && !(lowerS r.song == lowerS q))).map
    (fun r => mkRes r 85 .contains)

/-- Matches after tiers 1 and 2: tier 2 is consulted only while the result
set is short of `max_results`, appending in order up to the cap. -/
def fmM2 (us : List SongAgg) (q : String) (maxResults : Nat) : List MatchResult :=
  if (fmExact us q).length < maxResults then
    fmExact us q ++ (fmContains us q).take (maxResults - (fmExact us q).length)
  else fmExact us q

/-- Tier 3 candidates, in `unique_songs` order: titles not already matched
(case-insensitively), scored by the external `partial_ratio` scorer `fz`,
kept when the score reaches the threshold; each hit looks up the first
aggregate row whose title equals the candidate title. -/
def fmFuzzy (us : List SongAgg) (fz : String → String → Nat) (q : String)
    (already : List String) (fuzzyThreshold : Nat) : List MatchResult :=
  ((us.map (·.song)).filter (fun t => !(already.contains (lowerS t)))).filterMap
    (fun t =>
      let sc := fz (lowerS q) (lowerS t)
      if fuzzyThreshold ≤ sc then
        match us.filter (fun r => r.song == t) with
        | r :: _ => some (mkRes r sc .fuzzy)
        | [] => none
      else none)

/-- All three tiers assembled: fuzzy candidates are sorted by descending
score (stably, as the Python `list.sort(reverse=True)`) and appended up to
the cap. -/
def fmM3 (us : List SongAgg) (fz : String → String → Nat) (q : String)
    (maxResults fuzzyThreshold : Nat) : List MatchResult :=
  if (fmM2 us q maxResults).length < maxResults then
    fmM2 us q maxResults ++
      (insSort (fun a b => b.matchScore ≤ a.matchScore)
        (fmFuzzy us fz q ((fmM2 us q maxResults).map (fun r => lowerS r.song))
          fuzzyThreshold)).take (maxResults - (fmM2 us q maxResults).length)
  else fmM2 us q maxResults

/-- Source `get_song_matches_with_duration` on a string argument: guard empty and
whitespace-only queries, filter by artist, run the three-tier cascade and
truncate to `max_results`. -/
def findMatchesStr (rows : List ChartEntry) (fz : String → String → Nat)
    (query : String) (artistName : Option String)
    (maxResults fuzzyThreshold : Nat) : List MatchResult :=
  if query = "" then []
  else if pyStrip query = "" then []
  else
    (fmM3 (fmUnique rows artistName) fz (pyStrip query) maxResults
      fuzzyThreshold).take maxResults

/-- A Python argument that may or may not be a `str`; `notStr` stands for
any non-string value (rejected by the `isinstance` guard). -/
inductive QueryArg where
  | str (s : String)
  | notStr
deriving DecidableEq

/-- Source `get_song_matches_with_duration` including the
`not query_song or not isinstance(query_song, str)` guard. -/
def findMatches (rows : List ChartEntry) (fz : String → String → Nat)
    (query : QueryArg) (artistName : Option String)
    (maxResults fuzzyThreshold : Nat) : List MatchResult :=
  match query with
  | .notStr => []
  | .str s => findMatchesStr rows fz s artistName maxResults fuzzyThreshold

/-! ## Backtracking pattern combinators

Hand-compilation targets for the regexes of `enhanced_query_parser`.
A matcher of type `K α` consumes characters from the current position and
either fails or produces a value (the tuple of captured groups); `alt`
gives ordered alternation, continuations give full backtracking, and
`searchFrom` supplies the `re.search` scan over start positions. -/

/-- Ordered choice, as plain `Option` selection. -/
def alt (a b : Option α) : Option α :=
  match a with
  | some x => some x
  | none => b

/-- A matcher from a position inside the subject string. -/
abbrev K (α : Type) := List Char → Option α

/-- Match the literal characters `w`, then continue. -/
def litP : List Char → K α → K α
  | [], k, s => k s
  | c :: w, k, s =>
      match s with
      | [] => none
      | c' :: s' => if c' = c then litP w k s' else none

/-- Greedy continuation part of `\s+`: consume further whitespace first,
falling back to stopping here. -/
def wsRest (k : K α) : K α
  | [] => k []
  | c :: s => if isWS c then alt (wsRest k s) (k (c :: s)) else k (c :: s)

/-- Greedy `\s+` (at least one whitespace character). -/
def ws1 (k : K α) : K α
  | [] => none
  | c :: s => if isWS c then wsRest k s else none

/-- Greedy continuation of `\d+` carrying the digits captured so far. -/
def digitsRest (acc : List Char) (k : List Char → K α) : K α
  | [] => k acc []
  | c :: s =>
      if c.isDigit then alt (digitsRest (acc ++ [c]) k s) (k acc (c :: s))
      else k acc (c :: s)

/-- Greedy capturing `(\d+)`. -/
def digits1 (k : List Char → K α) : K α
  | [] => none
  | c :: s => if c.isDigit then digitsRest [c] k s else none

/-- Exactly `n` digits, as in `(\d{2})` and `(\d{4})`. -/
def digitsN : Nat → List Char → (List Char → K α) → K α
  | 0, acc, k, s => k acc s
  | n + 1, acc, k, s =>
      match s with
      | [] => none
      | c :: s' => if c.isDigit then digitsN n (acc ++ [c]) k s' else none

/-- Greedy optional group `(?: ... )?`: try the group first. -/
def optP (p : K α → K α) (k : K α) : K α := fun s => alt (p k s) (k s)

/-- Lazy capturing `(.+?)` (at least one character, `.` excludes `'\n'`),
preferring the shortest capture whose continuation succeeds. -/
def lazyCapAux (acc : List Char) (k : List Char → K α) : K α
  | [] => none
  | c :: s =>
      if c = '\n' then none
      else alt (k (acc ++ [c]) s) (lazyCapAux (acc ++ [c]) k s)

def lazyCap (k : List Char → K α) : K α := lazyCapAux [] k

/-- Source `$` with Python `re` semantics (end of subject, or just before one
final newline); the compiled patterns end there, so it accepts `res`. -/
def endP (res : α) : K α := fun s =>
  match s with
  | [] => some res
  | ['\n'] => some res
  | _ => none

/-- Source `(?:\?|$)` at the end of a pattern. -/
def qmarkEnd (res : α) : K α := fun s =>
  alt (litP ['?'] (fun _ => some res) s) (endP res s)

/-- Source `(?:\?|$|on)` at the end of a pattern. -/
def qmarkEndOn (res : α) : K α := fun s =>
  alt (litP ['?'] (fun _ => some res) s)
    (alt (endP res s) (litP ['o', 'n'] (fun _ => some res) s))

/-- Source `re.search`: try the compiled matcher at every start position, leftmost
first (also at the end-of-string position). -/
def searchFrom (m : K α) : K α
  | [] => m []
  | c :: s => alt (m (c :: s)) (searchFrom m s)

/-- Lifted ordered alternation of matchers. -/
def altK (p q : K α) : K α := fun s => alt (p s) (q s)

/-- Source `songs?` (literal "song" with greedy optional "s"). -/
def songsP (k : K α) : K α :=
  litP "song".data (altK (litP ['s'] k) k)

/-- Source `(?:songs?|hits?)`. -/
def songsOrHits (k : K α) : K α :=
  altK (litP "song".data (altK (litP ['s'] k) k))
    (litP "hit".data (altK (litP ['s'] k) k))

/-- Source `(?:of|from|in)`. -/
def ofFromIn (k : K α) : K α :=
  altK (litP "of".data k) (altK (litP "from".data k) (litP "in".data k))

/-- Source `(?:of|from)`. -/
def ofFrom (k : K α) : K α :=
  altK (litP "of".data k) (litP "from".data k)

/-- Source `(?:top|best)`. -/
def topOrBest (k : K α) : K α :=
  altK (litP "top".data k) (litP "best".data k)

/-- Source `(?:was|did)`. -/
def wasOrDid (k : K α) : K α :=
  altK (litP "was".data k) (litP "did".data k)

/-- Source `(?:of|for)`. -/
def ofOrFor (k : K α) : K α :=
  altK (litP "of".data k) (litP "for".data k)

/-- Source `(?:for|of)`. -/
def forOrOf (k : K α) : K α :=
  altK (litP "for".data k) (litP "of".data k)

/-- Source `(?:stay|on|chart|last)`. -/
def stayOnChartLast (res : α) : K α :=
  altK (litP "stay".data (fun _ => some res))
    (altK (litP "on".data (fun _ => some res))
      (altK (litP "chart".data (fun _ => some res))
        (litP "last".data (fun _ => some res))))

/-- Source `(?:on|stay|chart)`. -/
def onStayChart (res : α) : K α :=
  altK (litP "on".data (fun _ => some res))
    (altK (litP "stay".data (fun _ => some res))
      (litP "chart".data (fun _ => some res)))

/-- Source `(?:duration|weeks|chart time)` followed by `(?:\?|$)`. -/
def durWeeksCT (res : α) : K α :=
  altK (litP "duration".data (qmarkEnd res))
    (altK (litP "weeks".data (qmarkEnd res))
      (litP "chart time".data (qmarkEnd res)))

/-- Source `(?:the )?chart(?:\?|$)` (the tail of patterns "... on (?:the )?chart"). -/
def optTheChartQE (res : α) : K α :=
  optP (fun k => litP "the ".data k) (litP "chart".data (qmarkEnd res))

/-! ### The compiled patterns of `enhanced_query_parser`

Stage 1 — `top_year_patterns` (capture `(n, year)`): -/

/-- Source `top\s+(\d+)\s+songs?\s+(?:of|from|in)\s+(\d{4})` -/
def s1p1A : K (List Char × List Char) :=
  litP "top".data (ws1 (digits1 (fun n =>
    ws1 (songsP (ws1 (ofFromIn (ws1 (digitsN 4 []
      (fun y _ => some (n, y))))))))))

/-- Source `best\s+(\d+)\s+(?:songs?|hits?)\s+(?:of|from|in)\s+(\d{4})` -/
def s1p2A : K (List Char × List Char) :=
  litP "best".data (ws1 (digits1 (fun n =>
    ws1 (songsOrHits (ws1 (ofFromIn (ws1 (digitsN 4 []
      (fun y _ => some (n, y))))))))))

/-- Source `(\d+)\s+(?:top|best)\s+songs?\s+(?:of|from|in)\s+(\d{4})` -/
def s1p3A : K (List Char × List Char) :=
  digits1 (fun n =>
    ws1 (topOrBest (ws1 (songsP (ws1 (ofFromIn (ws1 (digitsN 4 []
      (fun y _ => some (n, y))))))))))

/-- Source `show\s+me\s+(?:top\s+)?(\d+)\s+songs?\s+(?:of|from|in)\s+(\d{4})` -/
def s1p4A : K (List Char × List Char) :=
  litP "show".data (ws1 (litP "me".data (ws1
    (optP (fun k => litP "top".data (ws1 k))
      (digits1 (fun n =>
        ws1 (songsP (ws1 (ofFromIn (ws1 (digitsN 4 []
          (fun y _ => some (n, y)))))))))))))

/-- Stage-1 search: the four patterns in order, each `re.search`ed. -/
def stage1Search (q : List Char) : Option (List Char × List Char) :=
  alt (searchFrom s1p1A q)
    (alt (searchFrom s1p2A q)
      (alt (searchFrom s1p3A q) (searchFrom s1p4A q)))

/-! Stage 2 — `top_year_default_patterns` (capture `year`): -/

/-- Source `top\s+songs?\s+(?:of|from|in)\s+(\d{4})` -/
def s2p1A : K (List Char) :=
  litP "top".data (ws1 (songsP (ws1 (ofFromIn (ws1 (digitsN 4 []
    (fun y _ => some y)))))))

/-- Source `best\s+(?:songs?|hits?)\s+(?:of|from|in)\s+(\d{4})` -/
def s2p2A : K (List Char) :=
  litP "best".data (ws1 (songsOrHits (ws1 (ofFromIn (ws1 (digitsN 4 []
    (fun y _ => some y)))))))

/-- Source `popular\s+songs?\s+(?:of|from|in)\s+(\d{4})` -/
def s2p3A : K (List Char) :=
  litP "popular".data (ws1 (songsP (ws1 (ofFromIn (ws1 (digitsN 4 []
    (fun y _ => some y)))))))

def stage2Search (q : List Char) : Option (List Char) :=
  alt (searchFrom s2p1A q)
    (alt (searchFrom s2p2A q) (searchFrom s2p3A q))

/-! Stage 3 — `decade_patterns` (capture the decade token): -/

/-- Source `(?:top|best)\s+(?:songs?|hits?)\s+(?:of|from)\s+the\s+(\d{2})s` -/
def s3p1A : K (List Char) :=
  topOrBest (ws1 (songsOrHits (ws1 (ofFrom (ws1 (litP "the".data
    (ws1 (digitsN 2 [] (fun t => litP ['s'] (fun _ => some t))))))))))

/-- Source `(?:top|best)\s+(?:songs?|hits?)\s+(?:of|from)\s+(\d{4})s` -/
def s3p2A : K (List Char) :=
  topOrBest (ws1 (songsOrHits (ws1 (ofFrom (ws1 (digitsN 4 []
    (fun t => litP ['s'] (fun _ => some t))))))))

/-- Source `best\s+of\s+(?:the\s+)?(\d{2})s` -/
def s3p3A : K (List Char) :=
  litP "best".data (ws1 (litP "of".data (ws1
    (optP (fun k => litP "the".data (ws1 k))
      (digitsN 2 [] (fun t => litP ['s'] (fun _ => some t)))))))

/-- Source `best\s+of\s+(\d{4})s` -/
def s3p4A : K (List Char) :=
  litP "best".data (ws1 (litP "of".data (ws1 (digitsN 4 []
    (fun t => litP ['s'] (fun _ => some t))))))

def decadeSearch (q : List Char) : Option (List Char) :=
  alt (searchFrom s3p1A q)
    (alt (searchFrom s3p2A q)
      (alt (searchFrom s3p3A q) (searchFrom s3p4A q)))

/-- The decade-token resolution of stage 3: two-digit tokens `>= 50` are
in the 1900s, `< 50` in the 2000s, four-digit tokens pass through. -/
def decadeMap (t : List Char) : Nat :=
  if t.length = 2 then
    (if 50 ≤ toNatL t then 1900 + toNatL t else 2000 + toNatL t)
  else toNatL t

/-! Stage 4 — `duration_with_artist_patterns` (capture `(song, artist)`): -/

/-- Source `how long (?:was|did) (.+?) by (.+?) (?:stay|on|chart|last)` -/
def s4p1A : K (List Char × List Char) :=
  litP "how long ".data (wasOrDid (litP [' ']
    (lazyCap (fun sg => litP " by ".data
      (lazyCap (fun ar => litP [' '] (stayOnChartLast (sg, ar))))))))

/-- Source `how many weeks (?:was|did) (.+?) by (.+?) (?:on|stay|chart)` -/
def s4p2A : K (List Char × List Char) :=
  litP "how many weeks ".data (wasOrDid (litP [' ']
    (lazyCap (fun sg => litP " by ".data
      (lazyCap (fun ar => litP [' '] (onStayChart (sg, ar))))))))

/-- Source `(.+?) by (.+?) (?:duration|weeks|chart time)(?:\?|$)` -/
def s4p3A : K (List Char × List Char) :=
  lazyCap (fun sg => litP " by ".data
    (lazyCap (fun ar => litP [' '] (durWeeksCT (sg, ar)))))

/-- Source `duration (?:of|for) (.+?) by (.+?)(?:\?|$|on)` -/
def s4p4A : K (List Char × List Char) :=
  litP "duration ".data (ofOrFor (litP [' ']
    (lazyCap (fun sg => litP " by ".data
      (lazyCap (fun ar => qmarkEndOn (sg, ar)))))))

/-- Source `(.+?) by (.+?) on (?:the )?chart(?:\?|$)` -/
def s4p5A : K (List Char × List Char) :=
  lazyCap (fun sg => litP " by ".data
    (lazyCap (fun ar => litP " on ".data (optTheChartQE (sg, ar)))))

/-! Stage 5 — `duration_patterns` (capture the song): -/

/-- Source `how long (?:was|did) (.+?) (?:stay|on|chart|last)` -/
def s5p1A : K (List Char) :=
  litP "how long ".data (wasOrDid (litP [' ']
    (lazyCap (fun sg => litP [' '] (stayOnChartLast sg)))))

/-- Source `how many weeks (?:was|did) (.+?) (?:on|stay|chart)` -/
def s5p2A : K (List Char) :=
  litP "how many weeks ".data (wasOrDid (litP [' ']
    (lazyCap (fun sg => litP [' '] (onStayChart sg)))))

/-- Source `duration (?:of|for) (.+?)(?:\?|$|on)` -/
def s5p3A : K (List Char) :=
  litP "duration ".data (ofOrFor (litP [' ']
    (lazyCap (fun sg => qmarkEndOn sg))))

/-- Source `weeks (?:for|of) (.+?)(?:\?|$|on)` -/
def s5p4A : K (List Char) :=
  litP "weeks ".data (forOrOf (litP [' ']
    (lazyCap (fun sg => qmarkEndOn sg))))

/-- Source `(.+?) (?:duration|weeks|chart time)(?:\?|$)` -/
def s5p5A : K (List Char) :=
  lazyCap (fun sg => litP [' '] (durWeeksCT sg))

/-- Source `chart time (?:for|of) (.+?)(?:\?|$)` -/
def s5p6A : K (List Char) :=
  litP "chart time ".data (forOrOf (litP [' ']
    (lazyCap (fun sg => qmarkEnd sg))))

/-- Source `how long (.+?)(?:\?|$)` -/
def s5p7A : K (List Char) :=
  litP "how long ".data (lazyCap (fun sg => qmarkEnd sg))

/-- Source `(.+?) on (?:the )?chart(?:\?|$)` -/
def s5p8A : K (List Char) :=
  lazyCap (fun sg => litP " on ".data (optTheChartQE sg))

/-- Source `(.+?) billboard(?:\?|$)` -/
def s5p9A : K (List Char) :=
  lazyCap (fun sg => litP " billboard".data (qmarkEnd sg))

/-! ## Stop-word cleanup of captured groups

The case-insensitive whole-word `re.sub` deletion of a stop word
made of word characters removes exactly the maximal word-character runs
that equal the word case-insensitively (a shorter occurrence inside a
longer run has no word boundary).  The subject is therefore tokenised
into maximal word runs and single non-word characters. -/

/-- Regex `\w` (ASCII): letters, digits, underscore. -/
def isWordChar (c : Char) : Bool := c.isAlphanum || c == '_'

inductive Tok where
  | word (cs : List Char)
  | other (c : Char)
deriving DecidableEq

/-- Add one character on the left of a token list, extending a leading
word run when both sides are word characters. -/
def pushChar (c : Char) (ts : List Tok) : List Tok :=
  if isWordChar c then
    match ts with
    | Tok.word w :: rest => Tok.word (c :: w) :: rest
    | _ => Tok.word [c] :: ts
  else Tok.other c :: ts

def tokenize (cs : List Char) : List Tok := cs.foldr pushChar []

def detok (ts : List Tok) : List Char :=
  ts.foldr (fun t acc =>
    (match t with
     | Tok.word w => w
     | Tok.other c => [c]) ++ acc) []

/-- Keep a token unless it is a word run equal (case-insensitively) to `w`. -/
def keepTok (w : List Char) (t : Tok) : Bool :=
  match t with
  | Tok.word u => !(lowerL u == w)
  | Tok.other _ => true

/-- The case-insensitive whole-word `re.sub` removal of an all-word-char
stop word `w` (given lower-case) by the empty string. -/
def removeWordCS (w : List Char) (cs : List Char) : List Char :=
  detok ((tokenize cs).filter (keepTok w))

/-- One pass of the cleanup loop: each stop word is removed and the string
re-stripped, in order. -/
def cleanupPass (ws : List (List Char)) (cs : List Char) : List Char :=
  ws.foldl (fun acc w => pyStripL (removeWordCS w acc)) cs

/-- Map every whitespace character to `' '`. -/
def spaceify (cs : List Char) : List Char :=
  cs.map (fun c => if isWS c then ' ' else c)

/-- Collapse runs of `' '` (keeping the last of each run). -/
def dedupSpace : List Char → List Char
  | [] => []
  | c :: cs =>
      if c = ' ' ∧ cs.head? = some ' ' then dedupSpace cs
      else c :: dedupSpace cs

/-- The whitespace-collapsing `re.sub`: every maximal whitespace run
becomes one space. -/
def collapseWS (cs : List Char) : List Char := dedupSpace (spaceify cs)

/-- The whole cleanup applied to a captured group: per-word removal with
interleaved strips, then whitespace collapsing and a final strip. -/
def cleanCaptured (ws : List (List Char)) (cs : List Char) : List Char :=
  pyStripL (collapseWS (cleanupPass ws cs))

/-- Stop words of the artist-qualified duration patterns. -/
def cleanupWordsA : List (List Char) :=
  ["the".data, "on".data, "chart".data, "billboard".data, "hot".data,
   "100".data, "was".data, "did".data, "stay".data, "long".data]

/-- Stop words of the plain duration patterns. -/
def cleanupWordsB : List (List Char) :=
  ["the".data, "on".data, "chart".data, "billboard".data, "hot".data,
   "100".data, "was".data, "did".data]

/-! ## The parser cascade -/

inductive Intent where
  | top_songs
  | top_songs_decade
  | song_duration
  | song_duration_with_artist
  | unknown
deriving DecidableEq

structure ParsedQuery where
  intent : Intent
  year : Option Nat
  n : Option Nat
  song : Option String
  artist : Option String
  decadeStart : Option Nat
deriving DecidableEq

/-- Stage 4: try each artist-qualified duration pattern in order; on a
match clean both captures and accept only if both stay non-empty,
otherwise fall through to the next pattern (as the source loop does). -/
def stage4Search : List (K (List Char × List Char)) → List Char →
    Option (List Char × List Char)
  | [], _ => none
  | p :: ps, q =>
      match searchFrom p q with
      | some (sg, ar) =>
          if cleanCaptured cleanupWordsA sg ≠ [] ∧
             cleanCaptured cleanupWordsA ar ≠ [] then
            some (cleanCaptured cleanupWordsA sg, cleanCaptured cleanupWordsA ar)
          else stage4Search ps q
      | none => stage4Search ps q

/-- Stage 5: same fall-through loop for the plain duration patterns. -/
def stage5Search : List (K (List Char)) → List Char → Option (List Char)
  | [], _ => none
  | p :: ps, q =>
      match searchFrom p q with
      | some sg =>
          if cleanCaptured cleanupWordsB sg ≠ [] then
            some (cleanCaptured cleanupWordsB sg)
          else stage5Search ps q
      | none => stage5Search ps q

def stage4Patterns : List (K (List Char × List Char)) :=
  [s4p1A, s4p2A, s4p3A, s4p4A, s4p5A]

def stage5Patterns : List (K (List Char)) :=
  [s5p1A, s5p2A, s5p3A, s5p4A, s5p5A, s5p6A, s5p7A, s5p8A, s5p9A]

/-- Source `query.lower().strip()`, the normalisation at the top of
`enhanced_query_parser`. -/
def normQ (query : String) : List Char := pyStripL (lowerL query.data)

/-- Source `enhanced_query_parser`: the ordered rule cascade, first match wins.
`none` models the empty result dictionary returned when no rule matches. -/
def enhancedQueryParser (query : String) : Option ParsedQuery :=
  alt ((stage1Search (normQ query)).map (fun p =>
      ⟨.top_songs, some (toNatL p.2), some (toNatL p.1), none, none, none⟩))
    (alt ((stage2Search (normQ query)).map (fun yds =>
        ⟨.top_songs, some (toNatL yds), some 10, none, none, none⟩))
      (alt ((decadeSearch (normQ query)).map (fun t =>
          ⟨.top_songs_decade, none, some 20, none, none, some (decadeMap t)⟩))
        (alt ((stage4Search stage4Patterns (normQ query)).map (fun p =>
            ⟨.song_duration_with_artist, none, none,
              some ⟨p.1⟩, some ⟨p.2⟩, none⟩))
          ((stage5Search stage5Patterns (normQ query)).map (fun sg =>
            ⟨.song_duration, none, none, some ⟨sg⟩, none, none⟩)))))

/-- The intent a caller reads off the parser result
(`result.get("intent", "")`, the empty dictionary reading as `unknown`). -/
def parsedIntent (query : String) : Intent :=
  match enhancedQueryParser query with
  | some r => r.intent
  | none => .unknown

/-! ## The FLAN-T5 fallback output (`parse_flan_output_to_dict` and the
count extraction of `respond_to_query`) -/

/-- Source `item.split(":", 1)`: split at the first colon, `none` when the item
contains no colon. -/
def splitFirstColon : List Char → Option (List Char × List Char)
  | [] => none
  | c :: cs =>
      if c = ':' then some ([], cs)
      else (splitFirstColon cs).map (fun p => (c :: p.1, p.2))

/-- Source `parse_flan_output_to_dict`: strip, split on `";"`, keep the items
containing a colon, strip-and-lowercase keys, strip values.  The dict is
an association list in insertion order (later keys overwrite). -/
def flanPairs (raw : String) : List (String × String) :=
  ((pyStripL raw.data).splitOn ';').filterMap (fun item =>
    match splitFirstColon (pyStripL item) with
    | some (k, v) => some ((⟨lowerL (pyStripL k)⟩ : String), (⟨pyStripL v⟩ : String))
    | none => none)

/-- Python dict lookup with overwriting: the last binding wins. -/
def dGet (d : List (String × String)) (k : String) : Option String :=
  (d.reverse.find? (fun p => p.1 == k)).map (·.2)

/-- The count extracted on the fallback path
(`min(int(nlp_result.get("n", 10)), 50) if nlp_result.get("n", "").isdigit()
else 10`). -/
def flanN (raw : String) : Nat :=
  match dGet (flanPairs raw) "n" with
  | some v => if pyIsDigits v then min (toNatL v.data) 50 else 10
  | none => 10

/-! ## Answer formatters (`format_song_duration_results`,
`format_top_songs`, `format_decade_songs`, `get_help_message`) -/

/-- An apostrophe character, used inside several user-facing strings. -/
def apos : Char := Char.ofNat 39

/-- The apostrophe as a one-character string. -/
def sq : String := String.singleton apos

/-- The "no matches" suggestion message of
`format_song_duration_results`. -/
def notFoundMsg (originalQuery : String) : String :=
  "🔍 Sorry, I couldn" ++ sq ++ "t find any songs matching " ++ sq ++
    originalQuery ++ sq ++ ". Try:\n" ++
    "• Check spelling\n" ++
    "• Use partial song names (e.g., " ++ sq ++ "Shape" ++ sq ++
    " instead of " ++ sq ++ "Shape of You" ++ sq ++ ")\n" ++
    "• Try just the artist name"

/-- Header of the single-match duration answer. -/
def singleHeader (m : MatchResult) : String :=
  "🎵 **" ++ m.song ++ "** by *" ++ m.artist ++ "* (" ++ Nat.repr m.year ++
    ")\n\n"

/-- The peak-rank line, emitted only when peak and best rank differ. -/
def peakSeg (m : MatchResult) : String :=
  "• **Peak rank:** #" ++ Nat.repr m.peakRank ++ "\n"

/-- The qualitative comment bands, selected high-to-low on weeks. -/
def commentFor (w : Nat) : String :=
  if 50 ≤ w then
    "\n🔥 **Incredible!** This song had amazing staying power on the charts!"
  else if 30 ≤ w then "\n⭐ **Great performance!** This was a major hit."
  else if 15 ≤ w then "\n👍 **Solid hit!** Good chart performance."
  else "\n📈 **Chart entry** - Brief but notable appearance."

/-- The consecutive string pieces appended by the single-match branch of
`format_song_duration_results` after its header. -/
def durationSegments (m : MatchResult) : List String :=
  ["📊 **Chart Performance:**\n",
   "• **" ++ Nat.repr m.weeksOnChart ++ " weeks** on Billboard Hot 100\n",
   "• **Best position:** #" ++ Nat.repr m.bestRank ++ "\n"] ++
  (if m.peakRank ≠ m.bestRank then [peakSeg m] else []) ++
  [commentFor m.weeksOnChart]

/-- One entry of the multi-match listing, with its tier indicator. -/
def multiEntry (i : Nat) (m : MatchResult) : String :=
  "**" ++ Nat.repr i ++ ".** " ++ m.song ++ " by *" ++ m.artist ++ "* (" ++
    Nat.repr m.year ++ ")" ++
    (match m.matchType with
     | .exact => " ✅"
     | .fuzzy => " (" ++ Nat.repr m.matchScore ++ "% match)"
     | .contains => "") ++
    "\n   📊 " ++ Nat.repr m.weeksOnChart ++
    " weeks on chart, peaked at #" ++ Nat.repr m.peakRank

/-- Source `format_song_duration_results`. -/
def formatSongDurationResults (mlist : List MatchResult)
    (originalQuery : String) : String :=
  match mlist with
  | [] => notFoundMsg originalQuery
  | [m] => singleHeader m ++ String.join (durationSegments m)
  | ms =>
      "🔍 Found **" ++ Nat.repr ms.length ++ "** songs matching " ++ sq ++
        originalQuery ++ sq ++ ":\n\n" ++
      String.intercalate "\n\n"
        (ms.enum.map (fun p => multiEntry (p.1 + 1) p.2)) ++
      "\n\n💡 **Tip:** Try a more specific query like the full song title " ++
        "for better results."

/-- Source `format_top_songs`. -/
def formatTopSongs (songs : List SongAgg) (year : Nat) (_n : Nat) : String :=
  if songs.isEmpty then
    "📭 No songs found for " ++ Nat.repr year ++
      ". Try a year between 1958–2021."
  else
    "🎵 **Top " ++ Nat.repr songs.length ++
      " Billboard Hot 100 songs of " ++ Nat.repr year ++ ":**\n\n" ++
    String.intercalate "\n\n" (songs.enum.map (fun p =>
      "**" ++ Nat.repr (p.1 + 1) ++ ". " ++ p.2.song ++ "** by *" ++
        p.2.artist ++ "*" ++
      "\n   • " ++ Nat.repr p.2.weeks ++ " weeks on chart" ++
      "\n   • Peaked at #" ++ Nat.repr p.2.peakRank))

/-- Source `format_decade_songs`. -/
def formatDecadeSongs (songs : List SongAgg) (decadeStart : Nat) (_n : Nat) :
    String :=
  if songs.isEmpty then
    "📭 No songs found for the " ++ Nat.repr decadeStart ++ "s."
  else
    "🎵 **Top " ++ Nat.repr songs.length ++
      " Billboard Hot 100 songs of the " ++ Nat.repr decadeStart ++ "s (" ++
      Nat.repr decadeStart ++ "–" ++ Nat.repr (decadeStart + 9) ++
      "):**\n\n" ++
    String.intercalate "\n\n" (songs.enum.map (fun p =>
      "**" ++ Nat.repr (p.1 + 1) ++ ". " ++ p.2.song ++ "** by *" ++
        p.2.artist ++ "* (" ++ Nat.repr p.2.year ++ ")" ++
      "\n   • " ++ Nat.repr p.2.weeks ++ " weeks on chart"))

/-- Source `get_help_message`. -/
def getHelpMessage : String :=
  "\n🤖 **I can help you with Billboard Hot 100 data (1958-2021)!**\n\n" ++
  "**Try these formats:**\n" ++
  "• 📊 **Top songs by year**: \"Top 10 songs of 1985\" or \"Best 5 hits from 2020\"\n" ++
  "• 🎭 **Top songs by decade**: \"Best songs from the 80s\" or \"Top hits of 2000s\"\n" ++
  "• ⏱ **Song duration**: \"How long was Bohemian Rhapsody on the chart?\" or just \"Judy on chart\"\n" ++
  "• 🎤 **Artist-specific search**: \"How long did Back to Back by Drake stay on the chart?\"\n" ++
  "• 🎯 **Any year**: Ask about any year from 1958 to 2021!\n\n" ++
  "**Example queries:**\n" ++
  "- \"Show me top 15 songs of 1999\"\n" ++
  "- \"How many weeks was Blinding Lights on the Billboard chart?\"\n" ++
  "- \"Best songs from the 90s\"\n" ++
  "- \"Shape of You duration\"\n" ++
  "- \"How long did Hotline Bling by Drake stay on chart?\"\n" ++
  "- \"God" ++ sq ++ "s Plan by Drake weeks on chart\"\n"

/-! ## The dialogue orchestrator (`respond_to_query`) -/

/-- The out-of-range message (the bounds are written as literals in the
source, matching the actual dataset coverage). -/
def outOfRangeMsg (year : Nat) : String :=
  "📅 Sorry, I only have data from 1958-2021. Year " ++ Nat.repr year ++
    " is outside this range."

def noYearMsg : String :=
  "🔍 Please specify a valid year between 1958-2021 (e.g., " ++ sq ++
    "Top 5 songs of 2012" ++ sq ++ ")."

def noDecadeMsg : String :=
  "🔍 Please specify a valid decade (e.g., " ++ sq ++
    "Best songs from the 80s" ++ sq ++ ")."

def noSongArtistMsg : String :=
  "🔍 Please specify a song name (e.g., " ++ sq ++
    "How long was Thriller by Michael Jackson on the chart?" ++ sq ++ ")."

def noSongMsg : String :=
  "🔍 Please specify a song name (e.g., " ++ sq ++
    "How long was Thriller on the chart?" ++ sq ++ ")."

def invalidQueryMsg : String := "❌ Please enter a valid text query."

/-- The intent-string comparison chain of the routing code, for the
fallback path (the enhanced-path intents map to themselves). -/
def intentOfString (s : String) : Intent :=
  if s = "top_songs" then .top_songs
  else if s = "top_songs_decade" then .top_songs_decade
  else if s = "song_duration_with_artist" then .song_duration_with_artist
  else if s = "song_duration" then .song_duration
  else .unknown

/-- The quote strip of the fallback path: drop leading and trailing
double-quote and apostrophe characters from both ends. -/
def stripQuotes (s : String) : String :=
  ⟨((s.data.dropWhile (fun c => c == '"' || c == apos)).reverse.dropWhile
      (fun c => c == '"' || c == apos)).reverse⟩

/-- The intent routing shared by both parser paths (`if not year` treats
`None` and `0` alike, as Python falsiness does). -/
def respondRoute (rows : List ChartEntry) (fz : String → String → Nat)
    (intent : Intent) (year : Option Nat) (n : Nat) (song artist : String)
    (decadeStart : Option Nat) : String :=
  match intent with
  | .top_songs =>
      if year.getD 0 = 0 then noYearMsg
      else if !validateYearRange rows (year.getD 0) then
        outOfRangeMsg (year.getD 0)
      else
        formatTopSongs (getTopSongsByYear rows (year.getD 0) n) (year.getD 0) n
  | .top_songs_decade =>
      if decadeStart.getD 0 = 0 then noDecadeMsg
      else
        formatDecadeSongs (getDecadeSongs rows (decadeStart.getD 0) n)
          (decadeStart.getD 0) n
  | .song_duration_with_artist =>
      if song = "" then noSongArtistMsg
      else
        formatSongDurationResults
          (findMatchesStr rows fz song (some artist) 3 60)
          (song ++ " by " ++ artist)
  | .song_duration =>
      if song = "" then noSongMsg
      else
        formatSongDurationResults (findMatchesStr rows fz song none 5 60) song
  | .unknown => getHelpMessage

/-- Source `respond_to_query`: the enhanced parser first; on an empty parse the
FLAN-T5 fallback (`flanOut` is the external model), sanitised through
`parse_flan_output_to_dict`. -/
def respondToQuery (rows : List ChartEntry) (fz : String → String → Nat)
    (flanOut : String → String) (query : String) : String :=
  if query = "" then invalidQueryMsg
  else
    match enhancedQueryParser query with
    | some r =>
        respondRoute rows fz r.intent r.year (r.n.getD 10) (r.song.getD "")
          (r.artist.getD "") r.decadeStart
    | none =>
        respondRoute rows fz
          (intentOfString (lowerS ((dGet (flanPairs (flanOut query))
            "intent").getD "")))
          (match dGet (flanPairs (flanOut query)) "year" with
           | some ys => if pyIsDigits ys then some (toNatL ys.data) else none
           | none => none)
          (flanN (flanOut query))
          (stripQuotes ((dGet (flanPairs (flanOut query)) "song").getD ""))
          (stripQuotes ((dGet (flanPairs (flanOut query)) "artist").getD ""))
          none

/-! ## Claim C9: the stop-word cleanup is idempotent

The proof works on the tokenisation: word runs survive every cleanup
operation unchanged except for whole-run removal, whitespace operations
only touch non-word characters, and after one full pass no stop-word run
remains, every whitespace character is a single space, and the ends are
not whitespace — so a second pass changes nothing. -/

/-- The word runs of a token list. -/
def wordsOf (ts : List Tok) : List (List Char) :=
  ts.filterMap (fun t =>
    match t with
    | .word w => some w
    | .other _ => none)

/-- The word runs of a string. -/
def wordToks (cs : List Char) : List (List Char) := wordsOf (tokenize cs)

/-- The leading word run of a token list, if any. -/
def hwT (ts : List Tok) : Option (List Char) :=
  match ts with
  | .word w :: _ => some w
  | _ => none

/-- The leading word run of a string, if any. -/
def hwL (cs : List Char) : Option (List Char) := hwT (tokenize cs)

/-- A token list does not start with a word run. -/
def headNotWord (ts : List Tok) : Prop :=
  match ts with
  | .word _ :: _ => False
  | _ => True

/-- Does a token hold a word run? -/
def Tok.isWordT : Tok → Prop
  | .word _ => True
  | .other _ => False

/-- Well-formed token lists: the image of `tokenize`. -/
def NormToks (ts : List Tok) : Prop :=
  (∀ w, Tok.word w ∈ ts → w ≠ [] ∧ ∀ c ∈ w, isWordChar c = true) ∧
  (∀ c, Tok.other c ∈ ts → isWordChar c = false) ∧
  List.Chain' (fun a b => ¬(a.isWordT ∧ b.isWordT)) ts

/-- The token image of `spaceify`: words unchanged, whitespace others
become spaces. -/
def mTok : Tok → Tok
  | .word w => .word w
  | .other c => .other (if isWS c then ' ' else c)

/-- The invariant established by whitespace collapsing: all whitespace is
a single `' '` and no two spaces are adjacent. -/
def CollapsedP (l : List Char) : Prop :=
  (∀ c ∈ l, isWS c = true → c = ' ') ∧
  List.Chain' (fun a b => ¬(a = ' ' ∧ b = ' ')) l

/-! ## Theorems -/

theorem insertLe_perm (le : α → α → Bool) (a : α) (l : List α) :
    (insertLe le a l).Perm (a :: l) := by
  induction l with
  | nil => simp [insertLe]
  | cons b bs ih =>
      by_cases h : le a b = true
      · simp [insertLe, h]
      · simp only [insertLe, h, if_false]
        exact (ih.cons b).trans (List.Perm.swap a b bs)

theorem insSort_perm (le : α → α → Bool) (l : List α) :
    (insSort le l).Perm l := by
  induction l with
  | nil => simp [insSort]
  | cons a as ih =>
      simp only [insSort, List.foldr_cons]
      exact (insertLe_perm le a _).trans (ih.cons a)

theorem insertLe_pairwise (le : α → α → Bool)
    (htrans : ∀ a b c, le a b = true → le b c = true → le a c = true)
    (htot : ∀ a b, le a b = true ∨ le b a = true) (a : α) (l : List α)
    (hl : l.Pairwise (fun x y => le x y = true)) :
    (insertLe le a l).Pairwise (fun x y => le x y = true) := by
  induction l with
  | nil => simp [insertLe]
  | cons b bs ih =>
      rcases List.pairwise_cons.mp hl with ⟨hb, hbs⟩
      by_cases h : le a b = true
      · simp only [insertLe, h, if_true]
        refine List.pairwise_cons.mpr ⟨?_, hl⟩
        intro x hx
        rcases List.mem_cons.mp hx with rfl | hx
        · exact h
        · exact htrans a b x h (hb x hx)
      · simp only [insertLe, h, if_false]
        refine List.pairwise_cons.mpr ⟨?_, ih hbs⟩
        intro x hx
        have hba : le b a = true := (htot a b).resolve_left h
        rcases List.mem_cons.mp ((insertLe_perm le a bs).mem_iff.mp hx) with rfl | h2
        · exact hba
        · exact hb x h2

theorem insSort_pairwise (le : α → α → Bool)
    (htrans : ∀ a b c, le a b = true → le b c = true → le a c = true)
    (htot : ∀ a b, le a b = true ∨ le b a = true) (l : List α) :
    (insSort le l).Pairwise (fun x y => le x y = true) := by
  induction l with
  | nil => simp [insSort]
  | cons a as ih => exact insertLe_pairwise le htrans htot a _ ih

/-! ## Membership facts about the match tiers -/

theorem mem_fmExact {us : List SongAgg} {q : String} {r : MatchResult}
    (h : r ∈ fmExact us q) :
    r.matchType = .exact ∧ r.matchScore = 100 ∧ lowerS r.song = lowerS q := by
  rcases List.mem_map.mp h with ⟨a, ha, rfl⟩
  rcases List.mem_filter.mp ha with ⟨-, hq⟩
  exact ⟨rfl, rfl, by simpa [mkRes] using hq⟩

theorem mem_fmContains {us : List SongAgg} {q : String} {r : MatchResult}
    (h : r ∈ fmContains us q) :
    r.matchType = .contains ∧ r.matchScore = 85 ∧ lowerS r.song ≠ lowerS q := by
  rcases List.mem_map.mp h with ⟨a, ha, rfl⟩
  rcases List.mem_filter.mp ha with ⟨-, hq⟩
  simp only [Bool.and_eq_true, Bool.not_eq_true', beq_eq_false_iff_ne] at hq
  exact ⟨rfl, rfl, by simpa [mkRes] using hq.2⟩

theorem mem_fmFuzzy {us : List SongAgg} {fz : String → String → Nat}
    {q : String} {already : List String} {ft : Nat} {r : MatchResult}
    (h : r ∈ fmFuzzy us fz q already ft) :
    r.matchType = .fuzzy ∧ lowerS r.song ∉ already := by
  rcases List.mem_filterMap.mp h with ⟨t, ht, hr⟩
  rcases List.mem_filter.mp ht with ⟨-, htna⟩
  dsimp only at hr
  split at hr
  · split at hr
    · rename_i row rest hrow
      cases hr
      have hrowmem : row ∈ us.filter (fun r => r.song == t) := by
        rw [hrow]; exact List.mem_cons_self row rest
      have hsong : row.song = t := by
        simpa using (List.mem_filter.mp hrowmem).2
      refine ⟨rfl, ?_⟩
      simp only [mkRes, hsong]
      intro hmem
      rw [Bool.not_eq_true'] at htna
      exact absurd ((List.elem_iff).mpr hmem) (by simpa [List.contains] using htna)
    · cases hr
  · cases hr

theorem mem_fmM2 {us : List SongAgg} {q : String} {mr : Nat} {r : MatchResult}
    (h : r ∈ fmM2 us q mr) : r ∈ fmExact us q ∨ r ∈ fmContains us q := by
  unfold fmM2 at h
  split at h
  · rcases List.mem_append.mp h with h1 | h2
    · exact Or.inl h1
    · exact Or.inr (List.mem_of_mem_take h2)
  · exact Or.inl h

theorem mem_fmM3 {us : List SongAgg} {fz : String → String → Nat} {q : String}
    {mr ft : Nat} {r : MatchResult} (h : r ∈ fmM3 us fz q mr ft) :
    r ∈ fmM2 us q mr ∨
      r ∈ fmFuzzy us fz q ((fmM2 us q mr).map (fun x => lowerS x.song)) ft := by
  unfold fmM3 at h
  split at h
  · rcases List.mem_append.mp h with h1 | h2
    · exact Or.inl h1
    · exact Or.inr (((insSort_perm _ _).mem_iff).mp (List.mem_of_mem_take h2))
  · exact Or.inl h

/-- Elements of `fmM2` are exact- or contains-tier; fuzzy-typed elements of
`fmM3` therefore come from the fuzzy candidate list. -/
theorem fmM2_type {us : List SongAgg} {q : String} {mr : Nat} {r : MatchResult}
    (h : r ∈ fmM2 us q mr) :
    r.matchType = .exact ∨ r.matchType = .contains := by
  rcases mem_fmM2 h with h1 | h2
  · exact Or.inl (mem_fmExact h1).1
  · exact Or.inr (mem_fmContains h2).1

/-! ## Tier structure of the assembled result -/

theorem fmM3_pairwise (us : List SongAgg) (fz : String → String → Nat)
    (q : String) (mr ft : Nat) :
    (fmM3 us fz q mr ft).Pairwise
      (fun x y => tierRank x.matchType ≤ tierRank y.matchType) := by
  have hex : ∀ r ∈ fmExact us q, tierRank r.matchType = 0 := by
    intro r hr; rw [(mem_fmExact hr).1]; rfl
  have hco : ∀ r ∈ fmContains us q, tierRank r.matchType = 1 := by
    intro r hr; rw [(mem_fmContains hr).1]; rfl
  have hm2 : ∀ r ∈ fmM2 us q mr, tierRank r.matchType ≤ 1 := by
    intro r hr
    rcases mem_fmM2 hr with h1 | h2
    · rw [hex r h1]; omega
    · rw [hco r h2]
  have hm2p : (fmM2 us q mr).Pairwise
      (fun x y => tierRank x.matchType ≤ tierRank y.matchType) := by
    unfold fmM2
    split
    · refine List.pairwise_append.mpr ⟨?_, ?_, ?_⟩
      · refine List.pairwise_of_forall_mem_list (fun x hx y hy => ?_)
        rw [hex x hx, hex y hy]
      · refine List.Pairwise.sublist (List.take_sublist _ _) ?_
        refine List.pairwise_of_forall_mem_list (fun x hx y hy => ?_)
        rw [hco x hx, hco y hy]
      · intro a ha b hb
        rw [hex a ha, hco b (List.mem_of_mem_take hb)]; omega
    · refine List.pairwise_of_forall_mem_list (fun x hx y hy => ?_)
      rw [hex x hx, hex y hy]
  unfold fmM3
  split
  · refine List.pairwise_append.mpr ⟨hm2p, ?_, ?_⟩
    · refine List.Pairwise.sublist (List.take_sublist _ _) ?_
      refine List.pairwise_of_forall_mem_list (fun x hx y hy => ?_)
      have hx' := (mem_fmFuzzy (((insSort_perm _ _).mem_iff).mp hx)).1
      have hy' := (mem_fmFuzzy (((insSort_perm _ _).mem_iff).mp hy)).1
      rw [hx', hy']
    · intro a ha b hb
      have hb' := (mem_fmFuzzy (((insSort_perm _ _).mem_iff).mp
        (List.mem_of_mem_take hb))).1
      rw [hb']
      exact le_trans (hm2 a ha) (by decide)
  · exact hm2p

/-- Claim C1 helper: length bound, tier ordering and the fixed per-tier
scores of the final truncated result. -/
theorem findMatchesStr_spec (rows : List ChartEntry) (fz : String → String → Nat)
    (query : String) (af : Option String) (mr ft : Nat) :
    (findMatchesStr rows fz query af mr ft).length ≤ mr ∧
    (findMatchesStr rows fz query af mr ft).Pairwise
      (fun x y => tierRank x.matchType ≤ tierRank y.matchType) ∧
    ∀ r ∈ findMatchesStr rows fz query af mr ft,
      (r.matchType = .exact → r.matchScore = 100) ∧
      (r.matchType = .contains → r.matchScore = 85) := by
  unfold findMatchesStr
  split
  · simp
  · split
    · simp
    · refine ⟨by simp, ?_, ?_⟩
      · exact List.Pairwise.sublist (List.take_sublist _ _)
          (fmM3_pairwise _ fz _ mr ft)
      · intro r hr
        have h3 := mem_fmM3 (List.mem_of_mem_take hr)
        constructor
        · intro hty
          rcases h3 with h2 | hf
          · rcases mem_fmM2 h2 with h1 | h1
            · exact (mem_fmExact h1).2.1
            · exact absurd ((mem_fmContains h1).1.symm.trans hty) (by simp)
          · exact absurd ((mem_fmFuzzy hf).1.symm.trans hty) (by simp)
        · intro hty
          rcases h3 with h2 | hf
          · rcases mem_fmM2 h2 with h1 | h1
            · exact absurd ((mem_fmExact h1).1.symm.trans hty) (by simp)
            · exact (mem_fmContains h1).2.1
          · exact absurd ((mem_fmFuzzy hf).1.symm.trans hty) (by simp)

/-! ## Facts about the aggregation engine -/

theorem aggregate_song (rows : List ChartEntry) (k : String × String) :
    (aggregate rows k).song = k.1 := by
  unfold aggregate; split <;> rfl

theorem aggregate_artist (rows : List ChartEntry) (k : String × String) :
    (aggregate rows k).artist = k.2 := by
  unfold aggregate; split <;> rfl

theorem groupAgg_keys_nodup (rows : List ChartEntry) :
    ((groupAgg rows).map (fun a => (a.song, a.artist))).Nodup := by
  unfold groupAgg
  rw [List.map_map]
  have heq : (groupKeys rows).map ((fun a => (a.song, a.artist)) ∘ aggregate rows)
      = groupKeys rows := by
    have := List.map_congr_left
      (f := (fun (a : SongAgg) => (a.song, a.artist)) ∘ aggregate rows) (g := id)
      (fun k (_ : k ∈ groupKeys rows) => by
        simp [Function.comp, aggregate_song, aggregate_artist])
    rw [this, List.map_id]
  rw [heq]
  unfold groupKeys
  exact ((insSort_perm _ _).nodup_iff).mpr (List.nodup_dedup _)

/-! ## Claim theorems: song match engine and aggregation -/

/-- Claim C1: for every dataset, scorer, query argument, artist filter and
`max_results` bound, `get_song_matches_with_duration` returns at most
`max_results` entries; in the returned sequence every exact-tier entry
precedes every contains-tier entry, which precedes every fuzzy-tier entry;
and exact entries carry `match_score = 100`, contains entries 85. -/
theorem findMatches_cap_and_tier_order (rows : List ChartEntry)
    (fz : String → String → Nat) (arg : QueryArg) (af : Option String)
    (mr ft : Nat) :
    (findMatches rows fz arg af mr ft).length ≤ mr ∧
    (findMatches rows fz arg af mr ft).Pairwise
      (fun x y => tierRank x.matchType ≤ tierRank y.matchType) ∧
    ∀ r ∈ findMatches rows fz arg af mr ft,
      (r.matchType = .exact → r.matchScore = 100) ∧
      (r.matchType = .contains → r.matchScore = 85) := by
  cases arg with
  | notStr => simp [findMatches]
  | str s => exact findMatchesStr_spec rows fz s af mr ft

/-- Claim C2: for every dataset, year with at least one entry and bound `n`,
`get_top_songs_by_year` returns at most `n` aggregates, sorted by
non-decreasing best rank, with no duplicate `(song, artist)` pair. -/
theorem getTopSongsByYear_spec (rows : List ChartEntry) (y n : Nat)
    (_hy : ∃ e ∈ rows, e.year = y) :
    (getTopSongsByYear rows y n).length ≤ n ∧
    (getTopSongsByYear rows y n).Pairwise (fun a b => a.rank ≤ b.rank) ∧
    ((getTopSongsByYear rows y n).map (fun a => (a.song, a.artist))).Nodup := by
  unfold getTopSongsByYear
  split
  · simp
  · refine ⟨by simp, ?_, ?_⟩
    · refine List.Pairwise.sublist (List.take_sublist _ _) ?_
      have := insSort_pairwise (fun (a b : SongAgg) => a.rank ≤ b.rank)
        (fun a b c hab hbc => by
          simp only [decide_eq_true_eq] at *; omega)
        (fun a b => by
          simp only [decide_eq_true_eq]; omega)
        (groupAgg (rows.filter (fun e => e.year == y)))
      exact this.imp (fun h => by simpa using h)
    · have h1 := groupAgg_keys_nodup (rows.filter (fun e => e.year == y))
      have h2 : ((insSort (fun a b => a.rank ≤ b.rank)
          (groupAgg (rows.filter (fun e => e.year == y)))).map
            (fun a => (a.song, a.artist))).Nodup :=
        (((insSort_perm _ _).map _).nodup_iff).mpr h1
      exact ((List.take_sublist n _).map _).nodup h2

/-- Claim C2 witness: a two-row fixture for 1999 evaluated concretely. -/
theorem getTopSongsByYear_spec_witness :
    (⟨0, 3, "A", "X", 0, 1, 4, 1999⟩ : ChartEntry) ∈
        [(⟨0, 3, "A", "X", 0, 1, 4, 1999⟩ : ChartEntry),
         ⟨1, 5, "B", "Y", 0, 2, 6, 1999⟩] ∧
    (getTopSongsByYear
        [(⟨0, 3, "A", "X", 0, 1, 4, 1999⟩ : ChartEntry),
         ⟨1, 5, "B", "Y", 0, 2, 6, 1999⟩] 1999 10).length ≤ 10 ∧
    (getTopSongsByYear
        [(⟨0, 3, "A", "X", 0, 1, 4, 1999⟩ : ChartEntry),
         ⟨1, 5, "B", "Y", 0, 2, 6, 1999⟩] 1999 10).Pairwise
      (fun a b => a.rank ≤ b.rank) ∧
    ((getTopSongsByYear
        [(⟨0, 3, "A", "X", 0, 1, 4, 1999⟩ : ChartEntry),
         ⟨1, 5, "B", "Y", 0, 2, 6, 1999⟩] 1999 10).map
      (fun a => (a.song, a.artist))).Nodup := by
  refine ⟨by decide, ?_⟩
  exact getTopSongsByYear_spec
    [⟨0, 3, "A", "X", 0, 1, 4, 1999⟩, ⟨1, 5, "B", "Y", 0, 2, 6, 1999⟩] 1999 10
    ⟨⟨0, 3, "A", "X", 0, 1, 4, 1999⟩, by decide, rfl⟩

/-- Claim C4 counterexample: two distinct artists sharing the title
"Hello" both enter the exact tier, so the returned sequence repeats the
same title (case-insensitively); the claimed all-tiers deduplication fails. -/
theorem findMatches_dedup_counterexample :
    ¬ ((findMatches
        [⟨0, 5, "Hello", "Adele", 0, 1, 10, 2015⟩,
         ⟨1, 7, "Hello", "Lionel", 0, 2, 8, 1984⟩]
        (fun _ _ => 0) (.str "Hello") none 5 60).map
          (fun r => lowerS r.song)).Nodup := by
  decide

theorem mem_findMatchesStr {rows : List ChartEntry} {fz : String → String → Nat}
    {s : String} {af : Option String} {mr ft : Nat} {r : MatchResult}
    (h : r ∈ findMatchesStr rows fz s af mr ft) :
    r ∈ fmM3 (fmUnique rows af) fz (pyStrip s) mr ft := by
  unfold findMatchesStr at h
  split at h
  · cases h
  · split at h
    · cases h
    · exact List.mem_of_mem_take h

/-- Claim C4 (amended): only cross-tier deduplication holds.  Every
fuzzy-tier entry of the result differs case-insensitively from every exact-
and contains-tier entry (the fuzzy tier filters against already-selected
titles), and every contains-tier entry differs from every exact-tier entry
(the contains tier excludes titles equal to the query, which is exactly
what the exact tier selects).  Within a tier titles may repeat. -/
theorem findMatches_cross_tier_dedup (rows : List ChartEntry)
    (fz : String → String → Nat) (arg : QueryArg) (af : Option String)
    (mr ft : Nat) :
    (∀ f ∈ findMatches rows fz arg af mr ft, f.matchType = .fuzzy →
      ∀ m ∈ findMatches rows fz arg af mr ft,
        (m.matchType = .exact ∨ m.matchType = .contains) →
        lowerS f.song ≠ lowerS m.song) ∧
    (∀ c ∈ findMatches rows fz arg af mr ft, c.matchType = .contains →
      ∀ e ∈ findMatches rows fz arg af mr ft, e.matchType = .exact →
        lowerS c.song ≠ lowerS e.song) := by
  cases arg with
  | notStr => simp [findMatches]
  | str s =>
      simp only [findMatches]
      constructor
      · intro f hf hfty m hm hmty
        have hf3 := mem_fmM3 (mem_findMatchesStr hf)
        have hm3 := mem_fmM3 (mem_findMatchesStr hm)
        rcases hf3 with h2 | hfz
        · rcases fmM2_type h2 with h | h <;> rw [hfty] at h <;> cases h
        · have hm2 : m ∈ fmM2 (fmUnique rows af) (pyStrip s) mr := by
            rcases hm3 with h | hmf
            · exact h
            · have := (mem_fmFuzzy hmf).1
              rcases hmty with h' | h' <;> rw [h'] at this <;> cases this
          have hnot := (mem_fmFuzzy hfz).2
          intro heq
          exact hnot (heq ▸ List.mem_map.mpr ⟨m, hm2, rfl⟩)
      · intro c hc hcty e he hety
        have hc3 := mem_fmM3 (mem_findMatchesStr hc)
        have he3 := mem_fmM3 (mem_findMatchesStr he)
        have hc2 : c ∈ fmM2 (fmUnique rows af) (pyStrip s) mr := by
          rcases hc3 with h | hcf
          · exact h
          · have := (mem_fmFuzzy hcf).1
            rw [hcty] at this; cases this
        have he2 : e ∈ fmM2 (fmUnique rows af) (pyStrip s) mr := by
          rcases he3 with h | hef
          · exact h
          · have := (mem_fmFuzzy hef).1
            rw [hety] at this; cases this
        have hcc : c ∈ fmContains (fmUnique rows af) (pyStrip s) := by
          rcases mem_fmM2 hc2 with h | h
          · have := (mem_fmExact h).1
            rw [hcty] at this; cases this
          · exact h
        have hee : e ∈ fmExact (fmUnique rows af) (pyStrip s) := by
          rcases mem_fmM2 he2 with h | h
          · exact h
          · have := (mem_fmContains h).1
            rw [hety] at this; cases this
        have h1 := (mem_fmContains hcc).2.2
        have h2 := (mem_fmExact hee).2.2
        rw [← h2] at h1
        exact h1

/-- Claim C4 (amended) witness: with the query "hello", the exact hit
"Hello" and the fuzzy hit "Help!" have different lowered titles. -/
theorem findMatches_cross_tier_dedup_witness :
    lowerS (MatchResult.song (mkRes ⟨"Help!", "Beatles", 3, 1, 9, 0, 1965⟩ 70 .fuzzy)) ≠
      lowerS (MatchResult.song (mkRes ⟨"Hello", "Adele", 5, 1, 10, 0, 2015⟩ 100 .exact)) := by
  exact (findMatches_cross_tier_dedup
      [⟨0, 5, "Hello", "Adele", 0, 1, 10, 2015⟩,
       ⟨1, 3, "Help!", "Beatles", 0, 1, 9, 1965⟩]
      (fun _ t => if t = "help!" then 70 else 0) (.str "hello") none 5 60).1
    (mkRes ⟨"Help!", "Beatles", 3, 1, 9, 0, 1965⟩ 70 .fuzzy) (by decide) (by decide)
    (mkRes ⟨"Hello", "Adele", 5, 1, 10, 0, 2015⟩ 100 .exact) (by decide)
    (Or.inl (by decide))

/-- Claim C10: a non-string argument, the empty string and whitespace-only
strings are all rejected up front: the result is `[]` for every dataset,
so the store is never searched. -/
theorem findMatches_degenerate_guard (rows : List ChartEntry)
    (fz : String → String → Nat) (af : Option String) (mr ft : Nat)
    (arg : QueryArg)
    (h : arg = .notStr ∨ ∃ s, arg = QueryArg.str s ∧ pyStrip s = "") :
    findMatches rows fz arg af mr ft = [] := by
  rcases h with rfl | ⟨s, rfl, hs⟩
  · rfl
  · unfold findMatches findMatchesStr
    by_cases h0 : s = "" <;> simp [h0, hs]

/-- Claim C10 witness: the guard fires on a whitespace-only query. -/
theorem findMatches_degenerate_guard_witness :
    findMatches [] (fun _ _ => 0) (QueryArg.str "  ") none 5 60 = [] :=
  findMatches_degenerate_guard [] (fun _ _ => 0) none 5 60 (QueryArg.str "  ")
    (Or.inr ⟨"  ", rfl, by decide⟩)

/-! ## Claim theorems: the parser cascade -/

/-- Exhaustive shape analysis of a successful parse: exactly one stage of
the cascade fired, and the result record is the one that stage builds. -/
theorem parser_shape (q : String) (r : ParsedQuery)
    (hp : enhancedQueryParser q = some r) :
    (∃ p, stage1Search (normQ q) = some p ∧
      r = ⟨.top_songs, some (toNatL p.2), some (toNatL p.1), none, none, none⟩) ∨
    (stage1Search (normQ q) = none ∧ ∃ yds, stage2Search (normQ q) = some yds ∧
      r = ⟨.top_songs, some (toNatL yds), some 10, none, none, none⟩) ∨
    (∃ t, decadeSearch (normQ q) = some t ∧
      r = ⟨.top_songs_decade, none, some 20, none, none, some (decadeMap t)⟩) ∨
    (∃ p, stage4Search stage4Patterns (normQ q) = some p ∧
      r = ⟨.song_duration_with_artist, none, none, some ⟨p.1⟩, some ⟨p.2⟩, none⟩) ∨
    (∃ sg, stage5Search stage5Patterns (normQ q) = some sg ∧
      r = ⟨.song_duration, none, none, some ⟨sg⟩, none, none⟩) := by
  unfold enhancedQueryParser at hp
  cases hs1 : stage1Search (normQ q) with
  | some p =>
      rw [hs1] at hp
      simp only [Option.map_some', alt] at hp
      exact Or.inl ⟨p, rfl, Option.some.inj hp.symm⟩
  | none =>
      rw [hs1] at hp
      simp only [Option.map_none', alt] at hp
      cases hs2 : stage2Search (normQ q) with
      | some yds =>
          rw [hs2] at hp
          simp only [Option.map_some', alt] at hp
          exact Or.inr (Or.inl ⟨rfl, yds, rfl, Option.some.inj hp.symm⟩)
      | none =>
          rw [hs2] at hp
          simp only [Option.map_none', alt] at hp
          cases hs3 : decadeSearch (normQ q) with
          | some t =>
              rw [hs3] at hp
              simp only [Option.map_some', alt] at hp
              exact Or.inr (Or.inr (Or.inl ⟨t, rfl, Option.some.inj hp.symm⟩))
          | none =>
              rw [hs3] at hp
              simp only [Option.map_none', alt] at hp
              cases hs4 : stage4Search stage4Patterns (normQ q) with
              | some p =>
                  rw [hs4] at hp
                  simp only [Option.map_some', alt] at hp
                  exact Or.inr (Or.inr (Or.inr (Or.inl ⟨p, rfl, Option.some.inj hp.symm⟩)))
              | none =>
                  rw [hs4] at hp
                  simp only [Option.map_none', alt] at hp
                  cases hs5 : stage5Search stage5Patterns (normQ q) with
                  | some sg =>
                      rw [hs5] at hp
                      simp only [Option.map_some'] at hp
                      exact Or.inr (Or.inr (Or.inr (Or.inr ⟨sg, rfl, Option.some.inj hp.symm⟩)))
                  | none =>
                      rw [hs5] at hp
                      simp only [Option.map_none'] at hp
                      cases hp

/-- Whenever stage 1 matches, the parser returns the top-songs record
built from the two captures. -/
theorem parser_stage1_result (q : String) (nds yds : List Char)
    (h1 : stage1Search (normQ q) = some (nds, yds)) :
    enhancedQueryParser q =
      some ⟨.top_songs, some (toNatL yds), some (toNatL nds),
        none, none, none⟩ := by
  unfold enhancedQueryParser
  rw [h1]
  rfl

/-- Claim C3 counterexample: the regex path extracts the literal count with
no cap, so "top 60 songs of 2020" yields `n = 60 > 50`. -/
theorem parser_count_cap_counterexample :
    enhancedQueryParser "top 60 songs of 2020" =
      some ⟨.top_songs, some 2020, some 60, none, none, none⟩ ∧ ¬(60 ≤ 50) := by
  exact ⟨by decide, by decide⟩

/-- Claim C3 (amended): only the language-model fallback path caps the
count at 50; the regex path returns the captured digits uncapped.  A
matched top-songs pattern without an explicit count yields `n = 10`, and
every decade query yields `n = 20`. -/
theorem parser_count_spec :
    (∀ raw, flanN raw ≤ 50) ∧
    (∀ q r, stage1Search (normQ q) = none → enhancedQueryParser q = some r →
      r.intent = .top_songs → r.n = some 10) ∧
    (∀ q r, enhancedQueryParser q = some r → r.intent = .top_songs_decade →
      r.n = some 20) ∧
    (∀ q nds yds, stage1Search (normQ q) = some (nds, yds) →
      enhancedQueryParser q =
        some ⟨.top_songs, some (toNatL yds), some (toNatL nds),
          none, none, none⟩) := by
  refine ⟨?_, ?_, ?_, ?_⟩
  · intro raw
    unfold flanN
    split
    · split
      · exact le_trans (Nat.min_le_right _ _) (le_refl 50)
      · omega
    · omega
  · intro q r h1 hp hi
    rcases parser_shape q r hp with ⟨p, hs, rfl⟩ | ⟨-, yds, hs, rfl⟩ |
      ⟨t, hs, rfl⟩ | ⟨p, hs, rfl⟩ | ⟨sg, hs, rfl⟩
    · rw [h1] at hs; cases hs
    · rfl
    · cases hi
    · cases hi
    · cases hi
  · intro q r hp hi
    rcases parser_shape q r hp with ⟨p, hs, rfl⟩ | ⟨-, yds, hs, rfl⟩ |
      ⟨t, hs, rfl⟩ | ⟨p, hs, rfl⟩ | ⟨sg, hs, rfl⟩
    · cases hi
    · cases hi
    · rfl
    · cases hi
    · cases hi
  · intro q nds yds h1
    exact parser_stage1_result q nds yds h1

/-- Claim C3 (amended) witness: the capped fallback count, the default 10,
the decade default 20 and an uncapped regex count, at concrete inputs. -/
theorem parser_count_spec_witness :
    flanN "intent: top_songs; n: 99" ≤ 50 ∧
    ParsedQuery.n ⟨.top_songs, some 2001, some 10, none, none, none⟩ = some 10 ∧
    ParsedQuery.n ⟨.top_songs_decade, none, some 20, none, none, some 1980⟩ =
      some 20 ∧
    enhancedQueryParser "top 99 songs of 1999" =
      some ⟨.top_songs, some 1999, some 99, none, none, none⟩ := by
  refine ⟨parser_count_spec.1 _, ?_, ?_, ?_⟩
  · exact parser_count_spec.2.1 "top songs of 2001"
      ⟨.top_songs, some 2001, some 10, none, none, none⟩
      (by decide) (by decide) rfl
  · exact parser_count_spec.2.2.1 "best of the 80s"
      ⟨.top_songs_decade, none, some 20, none, none, some 1980⟩
      (by decide) rfl
  · exact parser_count_spec.2.2.2 "top 99 songs of 1999"
      ['9', '9'] ['1', '9', '9', '9'] (by decide)

/-- Claim C5: the parser is a total function (it is defined by structural
recursion, so it cannot fail), and when no rule of the five-stage cascade
matches it produces the empty result, which callers read as the `unknown`
intent. -/
theorem parser_unknown_on_no_match (q : String)
    (h1 : stage1Search (normQ q) = none)
    (h2 : stage2Search (normQ q) = none)
    (h3 : decadeSearch (normQ q) = none)
    (h4 : stage4Search stage4Patterns (normQ q) = none)
    (h5 : stage5Search stage5Patterns (normQ q) = none) :
    enhancedQueryParser q = none ∧ parsedIntent q = .unknown := by
  have hp : enhancedQueryParser q = none := by
    unfold enhancedQueryParser
    rw [h1, h2, h3, h4, h5]
    rfl
  exact ⟨hp, by unfold parsedIntent; rw [hp]⟩

/-- Claim C5 witness: a nonsense query matches no rule and reads as
`unknown`. -/
theorem parser_unknown_on_no_match_witness :
    enhancedQueryParser "asdkjaskjd" = none ∧
      parsedIntent "asdkjaskjd" = .unknown :=
  parser_unknown_on_no_match "asdkjaskjd"
    (by decide) (by decide) (by decide) (by decide) (by decide)

/-- Claim C6: whenever the parser classifies a query as a decade query,
the decade token resolved from the matched pattern obeys: a two-digit
token of value ≥ 50 maps to `1900 + value`, a two-digit token below 50
maps to `2000 + value`, and a four-digit token passes through; the intent
is `top_songs_decade`.  Concretely "80s" resolves to 1980, "00s" to 2000
and "2000s" to 2000. -/
theorem parser_decade_resolution :
    (∀ q r, enhancedQueryParser q = some r → r.intent = .top_songs_decade →
      ∃ t, decadeSearch (normQ q) = some t ∧
        r.decadeStart = some (if t.length = 2
          then (if 50 ≤ toNatL t then 1900 + toNatL t else 2000 + toNatL t)
          else toNatL t)) ∧
    enhancedQueryParser "best of the 80s" =
      some ⟨.top_songs_decade, none, some 20, none, none, some 1980⟩ ∧
    enhancedQueryParser "best of 00s" =
      some ⟨.top_songs_decade, none, some 20, none, none, some 2000⟩ ∧
    enhancedQueryParser "best of 2000s" =
      some ⟨.top_songs_decade, none, some 20, none, none, some 2000⟩ := by
  refine ⟨?_, by decide, by decide, by decide⟩
  intro q r hp hi
  rcases parser_shape q r hp with ⟨p, hs, rfl⟩ | ⟨-, yds, hs, rfl⟩ |
    ⟨t, hs, rfl⟩ | ⟨p, hs, rfl⟩ | ⟨sg, hs, rfl⟩
  · cases hi
  · cases hi
  · exact ⟨t, hs, rfl⟩
  · cases hi
  · cases hi

/-- Claim C6 witness: the universal part applied to "best of the 80s". -/
theorem parser_decade_resolution_witness :
    ∃ t, decadeSearch (normQ "best of the 80s") = some t ∧
      ParsedQuery.decadeStart
          ⟨.top_songs_decade, none, some 20, none, none, some 1980⟩ =
        some (if t.length = 2
          then (if 50 ≤ toNatL t then 1900 + toNatL t else 2000 + toNatL t)
          else toNatL t) :=
  parser_decade_resolution.1 "best of the 80s"
    ⟨.top_songs_decade, none, some 20, none, none, some 1980⟩
    (by decide) rfl

/-! ## Decimal representations start with a digit (used to tell the
fixed formatter text apart from interpolated numbers) -/

theorem digitChar_isDigit {k : Nat} (h : k < 10) :
    (Nat.digitChar k).isDigit = true := by
  interval_cases k <;> decide

theorem toDigitsCore_all_digits :
    ∀ fuel n ds, (∀ x ∈ ds, x.isDigit = true) →
      ∀ x ∈ Nat.toDigitsCore 10 fuel n ds, x.isDigit = true := by
  intro fuel
  induction fuel with
  | zero => intro n ds hds; simpa [Nat.toDigitsCore] using hds
  | succ f ih =>
      intro n ds hds x hx
      rw [Nat.toDigitsCore] at hx
      by_cases h0 : n / 10 = 0
      · rw [if_pos h0] at hx
        rcases List.mem_cons.mp hx with rfl | hmem
        · exact digitChar_isDigit (Nat.mod_lt _ (by omega))
        · exact hds x hmem
      · rw [if_neg h0] at hx
        refine ih (n / 10) _ ?_ x hx
        intro y hy
        rcases List.mem_cons.mp hy with rfl | hmem
        · exact digitChar_isDigit (Nat.mod_lt _ (by omega))
        · exact hds y hmem

theorem toDigitsCore_ne_nil :
    ∀ fuel n ds, ds ≠ [] ∨ fuel ≠ 0 → Nat.toDigitsCore 10 fuel n ds ≠ [] := by
  intro fuel
  induction fuel with
  | zero =>
      intro n ds h
      rcases h with h | h
      · simpa [Nat.toDigitsCore] using h
      · exact absurd rfl h
  | succ f ih =>
      intro n ds _
      rw [Nat.toDigitsCore]
      by_cases h0 : n / 10 = 0
      · rw [if_pos h0]; exact List.cons_ne_nil _ _
      · rw [if_neg h0]
        exact ih (n / 10) _ (Or.inl (List.cons_ne_nil _ _))

theorem repr_head_digit (n : Nat) :
    ∃ c cs, (Nat.repr n).data = c :: cs ∧ c.isDigit = true := by
  have hne : Nat.toDigits 10 n ≠ [] :=
    toDigitsCore_ne_nil (n + 1) n [] (Or.inr (by omega))
  rcases List.exists_cons_of_ne_nil hne with ⟨c, cs, hc⟩
  refine ⟨c, cs, ?_, ?_⟩
  · show (Nat.toDigits 10 n).asString.data = c :: cs
    rw [hc]; rfl
  · exact toDigitsCore_all_digits (n + 1) n [] (by intro x hx; cases hx) c
      (by rw [show Nat.toDigitsCore 10 (n + 1) n [] = Nat.toDigits 10 n from rfl,
              hc]
          exact List.mem_cons_self c cs)

/-! ## Claim C8: the peak-rank line appears iff peak and best rank differ -/

theorem peakSeg_ne_perf (m : MatchResult) :
    peakSeg m ≠ "📊 **Chart Performance:**\n" := by
  intro h
  have hd := congrArg String.data h
  simp only [peakSeg, String.data_append, List.append_assoc,
    List.cons_append, List.nil_append, List.cons.injEq] at hd
  exact absurd hd.1 (by decide)

theorem peakSeg_ne_weeks (m : MatchResult) :
    peakSeg m ≠ "• **" ++ Nat.repr m.weeksOnChart ++
      " weeks** on Billboard Hot 100\n" := by
  intro h
  rcases repr_head_digit m.weeksOnChart with ⟨c, cs, hc, hdig⟩
  have hd := congrArg String.data h
  simp only [peakSeg, String.data_append, List.append_assoc,
    List.cons_append, List.nil_append, hc, List.cons.injEq] at hd
  have hPc : 'P' = c := hd.2.2.2.2.1
  rw [← hPc] at hdig
  exact absurd hdig (by decide)

theorem peakSeg_ne_best (m : MatchResult) :
    peakSeg m ≠ "• **Best position:** #" ++ Nat.repr m.bestRank ++ "\n" := by
  intro h
  have hd := congrArg String.data h
  simp only [peakSeg, String.data_append, List.append_assoc,
    List.cons_append, List.nil_append, List.cons.injEq] at hd
  exact absurd hd.2.2.2.2.1 (by decide)

theorem peakSeg_ne_comment (m : MatchResult) (w : Nat) :
    peakSeg m ≠ commentFor w := by
  intro h
  have hd := congrArg (fun s => s.data.head?) h
  have hcomm : (commentFor w).data.head? = some '\n' := by
    unfold commentFor
    split
    · rfl
    · split
      · rfl
      · split
        · rfl
        · rfl
  simp only [peakSeg, String.data_append, List.append_assoc,
    List.cons_append, List.nil_append, List.head?_cons, hcomm] at hd
  exact absurd hd (by decide)

/-- Claim C8: for a single-match duration result, the formatted answer is
the header followed by the chart-performance segments, and the separate
peak-rank line is among those segments exactly when the peak rank of the match
differs from its best rank. -/
theorem formatSingle_peak_line_iff (m : MatchResult) (q : String) :
    formatSongDurationResults [m] q =
      singleHeader m ++ String.join (durationSegments m) ∧
    (peakSeg m ∈ durationSegments m ↔ m.peakRank ≠ m.bestRank) := by
  refine ⟨rfl, ?_, ?_⟩
  · intro hmem
    unfold durationSegments at hmem
    by_cases hpb : m.peakRank = m.bestRank
    · exfalso
      rw [if_neg (by simpa using hpb)] at hmem
      simp only [List.append_nil, List.mem_append, List.mem_cons,
        List.mem_singleton, List.not_mem_nil, or_false] at hmem
      rcases hmem with (h | h | h) | h
      · exact peakSeg_ne_perf m h
      · exact peakSeg_ne_weeks m h
      · exact peakSeg_ne_best m h
      · exact peakSeg_ne_comment m _ h
    · exact hpb
  · intro hne
    unfold durationSegments
    rw [if_pos hne]
    simp

/-! ## Digit-character facts used for symbolic query evaluation -/

theorem digit_ne (c d : Char) (h : c.isDigit = true) (hd : d.isDigit = false) :
    (c = d) = False := by
  simp only [eq_iff_iff, iff_false]
  rintro rfl
  rw [h] at hd
  cases hd

theorem charDigit_toNat {c : Char} (h : c.isDigit = true) :
    48 ≤ c.toNat ∧ c.toNat ≤ 57 := by
  simp [Char.isDigit] at h
  obtain ⟨ha, hb⟩ := h
  rw [UInt32.le_def, BitVec.le_def] at ha hb
  simp [Char.toNat, UInt32.toNat] at *
  omega

theorem digit_toLower {c : Char} (h : c.isDigit = true) : c.toLower = c := by
  have := charDigit_toNat h
  simp [Char.toLower]
  intro h65
  omega

theorem digit_not_ws {c : Char} (h : c.isDigit = true) :
    c.isWhitespace = false := by
  simp only [Char.isWhitespace, Bool.or_eq_false_iff, decide_eq_false_iff_not]
  refine ⟨⟨⟨?_, ?_⟩, ?_⟩, ?_⟩ <;> rintro rfl <;> exact absurd h (by decide)

theorem digit_isWS {c : Char} (h : c.isDigit = true) : isWS c = false := by
  simp [isWS, digit_not_ws h]

theorem alt_some (x : α) (b : Option α) : alt (some x) b = some x := rfl

theorem searchFrom_cons_some {m : K α} {c : Char} {s : List Char} {r : α}
    (h : m (c :: s) = some r) : searchFrom m (c :: s) = some r := by
  rw [searchFrom, h, alt_some]

/-- Source `str.strip()` is the identity on a string with no whitespace at either
end. -/
theorem pyStripL_no_edge_ws (l : List Char)
    (hh : ∀ c, l.head? = some c → isWS c = false)
    (hl : ∀ c, l.getLast? = some c → isWS c = false) : pyStripL l = l := by
  unfold pyStripL
  have h1 : l.dropWhile isWS = l := by
    cases l with
    | nil => rfl
    | cons a t => rw [List.dropWhile_cons, hh a rfl]; simp
  rw [h1]
  have h2 : l.reverse.dropWhile isWS = l.reverse := by
    cases hr : l.reverse with
    | nil => rfl
    | cons a t =>
        rw [List.dropWhile_cons,
          hl a (by rw [← List.head?_reverse, hr]; rfl)]
        simp
  rw [h2, List.reverse_reverse]

/-! ## Claim C7: out-of-range years -/

/-- Pattern 1 of stage 1 matches "top 10 songs of " followed by any four
digits, capturing the count "10" and the digits. -/
theorem s1p1_top10_digits (d1 d2 d3 d4 : Char)
    (h1 : d1.isDigit = true) (h2 : d2.isDigit = true)
    (h3 : d3.isDigit = true) (h4 : d4.isDigit = true) :
    s1p1A ("top 10 songs of ".data ++ [d1, d2, d3, d4]) =
      some (['1', '0'], [d1, d2, d3, d4]) := by
  show s1p1A ('t' :: 'o' :: 'p' :: ' ' :: '1' :: '0' :: ' ' :: 's' :: 'o' ::
    'n' :: 'g' :: 's' :: ' ' :: 'o' :: 'f' :: ' ' :: [d1, d2, d3, d4]) = _
  simp only [s1p1A, litP, ws1, wsRest, digits1, digitsRest, digitsN,
    songsP, ofFromIn, altK, alt,
    h1, h2, h3, h4, digit_isWS h1, digit_isWS h2, digit_isWS h3,
    digit_isWS h4,
    show isWS ' ' = true from by decide,
    show isWS 't' = false from by decide,
    show isWS 'o' = false from by decide,
    show isWS 'p' = false from by decide,
    show isWS 's' = false from by decide,
    show isWS 'n' = false from by decide,
    show isWS 'g' = false from by decide,
    show isWS 'f' = false from by decide,
    show isWS '1' = false from by decide,
    show isWS '0' = false from by decide,
    show ('1' : Char).isDigit = true from by decide,
    show ('0' : Char).isDigit = true from by decide,
    show (' ' : Char).isDigit = false from by decide,
    show ('s' : Char).isDigit = false from by decide,
    if_true, if_false, Bool.false_eq_true, ite_false, ite_true]
  rfl

theorem stage1_top10_digits (d1 d2 d3 d4 : Char)
    (h1 : d1.isDigit = true) (h2 : d2.isDigit = true)
    (h3 : d3.isDigit = true) (h4 : d4.isDigit = true) :
    stage1Search ("top 10 songs of ".data ++ [d1, d2, d3, d4]) =
      some (['1', '0'], [d1, d2, d3, d4]) := by
  unfold stage1Search
  have hcons : ("top 10 songs of ".data ++ [d1, d2, d3, d4] : List Char) =
      't' :: ("op 10 songs of ".data ++ [d1, d2, d3, d4]) := rfl
  rw [hcons]
  rw [searchFrom_cons_some (by
    rw [← hcons]; exact s1p1_top10_digits d1 d2 d3 d4 h1 h2 h3 h4)]
  rfl

/-- Lower-casing and stripping leave "top 10 songs of <dddd>" unchanged. -/
theorem normQ_top10_digits (d1 d2 d3 d4 : Char)
    (h1 : d1.isDigit = true) (h2 : d2.isDigit = true)
    (h3 : d3.isDigit = true) (h4 : d4.isDigit = true) :
    normQ ("top 10 songs of " ++ (⟨[d1, d2, d3, d4]⟩ : String)) =
      "top 10 songs of ".data ++ [d1, d2, d3, d4] := by
  unfold normQ
  rw [String.data_append]
  rw [show (String.mk [d1, d2, d3, d4]).data = [d1, d2, d3, d4] from rfl]
  have hlow : lowerL ("top 10 songs of ".data ++ [d1, d2, d3, d4]) =
      "top 10 songs of ".data ++ [d1, d2, d3, d4] := by
    unfold lowerL
    rw [List.map_append]
    rw [show List.map lowerC "top 10 songs of ".data =
      "top 10 songs of ".data from by decide]
    simp [lowerC, digit_toLower h1, digit_toLower h2, digit_toLower h3,
      digit_toLower h4]
  rw [hlow]
  refine pyStripL_no_edge_ws _ ?_ ?_
  · intro c hc
    have : c = 't' := by
      rw [show ("top 10 songs of ".data ++ [d1, d2, d3, d4] : List Char) =
        't' :: ("op 10 songs of ".data ++ [d1, d2, d3, d4]) from rfl] at hc
      injection hc with h'
      exact h'.symm
    rw [this]; decide
  · intro c hc
    have hsplit : ("top 10 songs of ".data ++ [d1, d2, d3, d4] : List Char) =
        ("top 10 songs of ".data ++ [d1, d2, d3]) ++ [d4] := by
      simp [List.append_assoc]
    rw [hsplit, List.getLast?_concat] at hc
    injection hc with h'
    rw [← h']
    exact digit_isWS h4

set_option maxRecDepth 8192 in
/-- Claim C7 counterexample: the year token "123" is not four digits, so
the query never reaches the top-songs route; with a fallback model that
returns nothing, the answer is the help text, not the out-of-range
message, although 123 is outside the dataset range. -/
theorem respond_out_of_range_counterexample :
    ¬ (minYear [(⟨0, 1, "A", "B", 0, 1, 1, 1958⟩ : ChartEntry),
          ⟨1, 1, "C", "D", 0, 1, 1, 2021⟩] ≤ 123 ∧
        123 ≤ maxYear [(⟨0, 1, "A", "B", 0, 1, 1, 1958⟩ : ChartEntry),
          ⟨1, 1, "C", "D", 0, 1, 1, 2021⟩]) ∧
    respondToQuery [(⟨0, 1, "A", "B", 0, 1, 1, 1958⟩ : ChartEntry),
        ⟨1, 1, "C", "D", 0, 1, 1, 2021⟩]
      (fun _ _ => 0) (fun _ => "") "top 10 songs of 123" = getHelpMessage ∧
    getHelpMessage ≠ outOfRangeMsg 123 := by
  refine ⟨by decide, by decide, by decide⟩

/-- Claim C7 (amended): for every dataset, scorer and fallback model, and
every four-digit year token with nonzero value outside the dataset range
from `minYear` to `maxYear`, `respond_to_query` on "top 10 songs of " +
the token returns the out-of-range guidance message.  (Year tokens that
are not exactly four digits miss the regex patterns and fall through to
the language-model path, as the counterexample shows.) -/
theorem respond_out_of_range_spec (rows : List ChartEntry)
    (fz : String → String → Nat) (flanOut : String → String)
    (d1 d2 d3 d4 : Char)
    (h1 : d1.isDigit = true) (h2 : d2.isDigit = true)
    (h3 : d3.isDigit = true) (h4 : d4.isDigit = true)
    (hnz : toNatL [d1, d2, d3, d4] ≠ 0)
    (hout : ¬ (minYear rows ≤ toNatL [d1, d2, d3, d4] ∧
      toNatL [d1, d2, d3, d4] ≤ maxYear rows)) :
    respondToQuery rows fz flanOut
        ("top 10 songs of " ++ (⟨[d1, d2, d3, d4]⟩ : String)) =
      outOfRangeMsg (toNatL [d1, d2, d3, d4]) := by
  have hq : ("top 10 songs of " ++ (⟨[d1, d2, d3, d4]⟩ : String)) ≠ "" := by
    intro h
    have hd := congrArg String.data h
    rw [String.data_append] at hd
    exact absurd hd (by simp [show ("top 10 songs of ").data =
      't' :: "op 10 songs of ".data from rfl])
  have hp : enhancedQueryParser
      ("top 10 songs of " ++ (⟨[d1, d2, d3, d4]⟩ : String)) =
      some ⟨.top_songs, some (toNatL [d1, d2, d3, d4]),
        some (toNatL ['1', '0']), none, none, none⟩ :=
    parser_stage1_result _ ['1', '0'] [d1, d2, d3, d4]
      (by rw [normQ_top10_digits d1 d2 d3 d4 h1 h2 h3 h4]
          exact stage1_top10_digits d1 d2 d3 d4 h1 h2 h3 h4)
  unfold respondToQuery
  rw [if_neg hq, hp]
  unfold respondRoute
  simp only [Option.getD_some]
  rw [if_neg hnz]
  have hval : validateYearRange rows (toNatL [d1, d2, d3, d4]) = false := by
    simp only [validateYearRange, Bool.and_eq_false_iff,
      decide_eq_false_iff_not]
    omega
  rw [hval]
  rfl

/-- Claim C7 (amended) witness: the out-of-range message for 2050 on a
1958-2021 fixture. -/
theorem respond_out_of_range_spec_witness :
    respondToQuery [(⟨0, 1, "A", "B", 0, 1, 1, 1958⟩ : ChartEntry),
        ⟨1, 1, "C", "D", 0, 1, 1, 2021⟩]
      (fun _ _ => 0) (fun _ => "")
      ("top 10 songs of " ++ (⟨['2', '0', '5', '0']⟩ : String)) =
      outOfRangeMsg (toNatL ['2', '0', '5', '0']) :=
  respond_out_of_range_spec
    [⟨0, 1, "A", "B", 0, 1, 1, 1958⟩, ⟨1, 1, "C", "D", 0, 1, 1, 2021⟩]
    (fun _ _ => 0) (fun _ => "") '2' '0' '5' '0'
    (by decide) (by decide) (by decide) (by decide) (by decide) (by decide)

theorem tokenize_cons (c : Char) (cs : List Char) :
    tokenize (c :: cs) = pushChar c (tokenize cs) := rfl

theorem detok_pushChar (c : Char) (ts : List Tok) :
    detok (pushChar c ts) = c :: detok ts := by
  unfold pushChar
  by_cases h : isWordChar c = true
  · rw [if_pos h]
    match ts with
    | [] => rfl
    | Tok.word w :: rest => rfl
    | Tok.other o :: rest => rfl
  · rw [if_neg h]
    rfl

theorem detok_tokenize (cs : List Char) : detok (tokenize cs) = cs := by
  induction cs with
  | nil => rfl
  | cons c cs ih => rw [tokenize_cons, detok_pushChar, ih]

theorem pushChar_norm (c : Char) (ts : List Tok) (h : NormToks ts) :
    NormToks (pushChar c ts) := by
  obtain ⟨hword, hother, hchain⟩ := h
  unfold pushChar
  by_cases hc : isWordChar c = true
  · rw [if_pos hc]
    cases ts with
    | nil =>
        show NormToks [Tok.word [c]]
        refine ⟨?_, ?_, ?_⟩
        · intro w hw
          rw [List.mem_singleton] at hw
          cases hw
          exact ⟨by simp, fun x hx => by
            rw [List.mem_singleton] at hx; rw [hx]; exact hc⟩
        · intro o ho
          rw [List.mem_singleton] at ho
          cases ho
        · exact List.chain'_singleton _
    | cons t rest =>
        cases t with
        | word w =>
            show NormToks (Tok.word (c :: w) :: rest)
            refine ⟨?_, ?_, ?_⟩
            · intro u hu
              rcases List.mem_cons.mp hu with h' | h'
              · cases h'
                have hw := hword w (List.mem_cons_self _ _)
                refine ⟨by simp, ?_⟩
                intro x hx
                rcases List.mem_cons.mp hx with rfl | hx
                · exact hc
                · exact hw.2 x hx
              · exact hword u (List.mem_cons_of_mem _ h')
            · intro o ho
              rcases List.mem_cons.mp ho with h' | h'
              · cases h'
              · exact hother o (List.mem_cons_of_mem _ h')
            · rw [List.chain'_cons'] at hchain ⊢
              exact ⟨fun y hy => hchain.1 y hy, hchain.2⟩
        | other o =>
            show NormToks (Tok.word [c] :: Tok.other o :: rest)
            refine ⟨?_, ?_, ?_⟩
            · intro u hu
              rcases List.mem_cons.mp hu with h' | h'
              · cases h'
                exact ⟨by simp, fun x hx => by
                  rw [List.mem_singleton] at hx; rw [hx]; exact hc⟩
              · exact hword u h'
            · intro p hp
              rcases List.mem_cons.mp hp with h' | h'
              · cases h'
              · exact hother p h'
            · rw [List.chain'_cons']
              refine ⟨?_, hchain⟩
              intro y hy
              simp only [List.head?_cons, Option.mem_def,
                Option.some.injEq] at hy
              rw [← hy]
              intro hco
              exact hco.2
  · rw [if_neg hc]
    refine ⟨?_, ?_, ?_⟩
    · intro u hu
      rcases List.mem_cons.mp hu with h' | h'
      · cases h'
      · exact hword u h'
    · intro o ho
      rcases List.mem_cons.mp ho with h' | h'
      · cases h'
        exact Bool.eq_false_iff.mpr hc
      · exact hother o h'
    · rw [List.chain'_cons']
      refine ⟨?_, hchain⟩
      intro y _
      intro hco
      exact hco.1

theorem tokenize_norm (cs : List Char) : NormToks (tokenize cs) := by
  induction cs with
  | nil =>
      refine ⟨?_, ?_, ?_⟩
      · intro w hw; cases hw
      · intro c hc; cases hc
      · exact List.chain'_nil
  | cons c cs ih => exact pushChar_norm c _ ih

theorem filter_keepTok_chain (w : List Char) :
    ∀ ts : List Tok, List.Chain' (fun a b => ¬(a.isWordT ∧ b.isWordT)) ts →
      List.Chain' (fun a b => ¬(a.isWordT ∧ b.isWordT))
        (ts.filter (keepTok w)) := by
  intro ts
  induction ts with
  | nil => intro _; simp
  | cons t rest ih =>
      intro hchain
      rw [List.chain'_cons'] at hchain
      by_cases hk : keepTok w t = true
      · rw [List.filter_cons_of_pos hk, List.chain'_cons']
        refine ⟨?_, ih hchain.2⟩
        intro y hy
        cases t with
        | other c => intro hco; exact hco.1
        | word u =>
            cases rest with
            | nil => simp at hy
            | cons t2 rest' =>
                cases t2 with
                | word v =>
                    exact absurd (by exact ⟨trivial, trivial⟩)
                      (hchain.1 (Tok.word v) (by simp))
                | other c =>
                    rw [List.filter_cons_of_pos
                      (show keepTok w (Tok.other c) = true from rfl)] at hy
                    simp only [List.head?_cons, Option.mem_def,
                      Option.some.injEq] at hy
                    rw [← hy]
                    intro hco
                    exact hco.2
      · rw [List.filter_cons_of_neg hk]
        exact ih hchain.2

theorem filter_keepTok_norm (w : List Char) (ts : List Tok) (h : NormToks ts) :
    NormToks (ts.filter (keepTok w)) := by
  obtain ⟨hword, hother, hchain⟩ := h
  exact ⟨fun u hu => hword u (List.mem_of_mem_filter hu),
    fun c hc => hother c (List.mem_of_mem_filter hc),
    filter_keepTok_chain w ts hchain⟩

theorem foldr_pushChar_append (cs : List Char) (ts : List Tok)
    (h : headNotWord ts) : cs.foldr pushChar ts = tokenize cs ++ ts := by
  induction cs with
  | nil =>
      cases ts with
      | nil => rfl
      | cons t rest =>
          cases t with
          | word _ => cases h
          | other _ => rfl
  | cons c cs ih =>
      rw [List.foldr_cons, ih]
      show pushChar c (tokenize cs ++ ts) = pushChar c (tokenize cs) ++ ts
      by_cases hc : isWordChar c = true
      · unfold pushChar
        rw [if_pos hc, if_pos hc]
        cases htk : tokenize cs with
        | nil =>
            simp only [List.nil_append]
            cases ts with
            | nil => rfl
            | cons t rest =>
                cases t with
                | word _ => cases h
                | other _ => rfl
        | cons t rest =>
            cases t with
            | word u => rfl
            | other o => rfl
      · unfold pushChar
        rw [if_neg hc, if_neg hc]
        rfl

/-- Pushing a non-empty all-word-character run onto a token list that does
not start with a word run produces exactly one word token. -/
theorem foldr_pushChar_word (w : List Char) (hne : w ≠ [])
    (hall : ∀ c ∈ w, isWordChar c = true) (ts : List Tok)
    (h : headNotWord ts) : w.foldr pushChar ts = Tok.word w :: ts := by
  induction w with
  | nil => exact absurd rfl hne
  | cons c w' ihw =>
      rw [List.foldr_cons]
      cases w' with
      | nil =>
          show pushChar c ts = _
          unfold pushChar
          rw [if_pos (hall c (List.mem_cons_self _ _))]
          cases ts with
          | nil => rfl
          | cons t rest =>
              cases t with
              | word v => cases h
              | other o => rfl
      | cons d w'' =>
          rw [ihw (by simp) (fun x hx => hall x (List.mem_cons_of_mem _ hx))]
          show pushChar c (Tok.word (d :: w'') :: ts) = _
          unfold pushChar
          rw [if_pos (hall c (List.mem_cons_self _ _))]

theorem tokenize_detok (ts : List Tok) (h : NormToks ts) :
    tokenize (detok ts) = ts := by
  induction ts with
  | nil => rfl
  | cons t rest ih =>
      obtain ⟨hword, hother, hchain⟩ := h
      rw [List.chain'_cons'] at hchain
      have hrest : NormToks rest :=
        ⟨fun w hw => hword w (List.mem_cons_of_mem _ hw),
         fun c hc => hother c (List.mem_cons_of_mem _ hc), hchain.2⟩
      cases t with
      | other c =>
          show tokenize ([c] ++ detok rest) = _
          rw [show ([c] ++ detok rest : List Char) = c :: detok rest from rfl,
            tokenize_cons, ih hrest]
          unfold pushChar
          rw [if_neg (by rw [hother c (List.mem_cons_self _ _)]; simp)]
      | word w =>
          have hnw : headNotWord rest := by
            cases rest with
            | nil => trivial
            | cons t2 rest' =>
                cases t2 with
                | word v =>
                    exact absurd (by exact ⟨trivial, trivial⟩)
                      (hchain.1 (Tok.word v) (by simp))
                | other _ => trivial
          have hw := hword w (List.mem_cons_self _ _)
          show tokenize (w ++ detok rest) = _
          rw [show tokenize (w ++ detok rest) =
              (w ++ detok rest).foldr pushChar [] from rfl,
            List.foldr_append,
            show (detok rest).foldr pushChar [] = tokenize (detok rest)
              from rfl,
            ih hrest]
          exact foldr_pushChar_word w hw.1 hw.2 rest hnw

theorem wordsOf_cons_word (u : List Char) (ts : List Tok) :
    wordsOf (Tok.word u :: ts) = u :: wordsOf ts := rfl

theorem wordsOf_cons_other (c : Char) (ts : List Tok) :
    wordsOf (Tok.other c :: ts) = wordsOf ts := rfl

theorem wordsOf_filter (w : List Char) (ts : List Tok) :
    wordsOf (ts.filter (keepTok w)) =
      (wordsOf ts).filter (fun u => !(lowerL u == w)) := by
  induction ts with
  | nil => rfl
  | cons t rest ih =>
      cases t with
      | other c =>
          rw [List.filter_cons_of_pos
              (show keepTok w (Tok.other c) = true from rfl),
            wordsOf_cons_other, ih, wordsOf_cons_other]
      | word u =>
          by_cases hk : (!(lowerL u == w)) = true
          · rw [List.filter_cons_of_pos (by simpa [keepTok] using hk),
              wordsOf_cons_word, ih, wordsOf_cons_word, List.filter_cons,
              if_pos hk]
          · rw [List.filter_cons_of_neg (by simpa [keepTok] using hk),
              ih, wordsOf_cons_word, List.filter_cons, if_neg hk]

theorem removeWordCS_wordToks (w : List Char) (cs : List Char) :
    wordToks (removeWordCS w cs) =
      (wordToks cs).filter (fun u => !(lowerL u == w)) := by
  unfold removeWordCS wordToks
  rw [tokenize_detok _ (filter_keepTok_norm w _ (tokenize_norm cs))]
  exact wordsOf_filter w _

theorem ws_not_word {c : Char} (h : isWS c = true) : isWordChar c = false := by
  simp only [isWS, Char.isWhitespace, Bool.or_eq_true, decide_eq_true_eq] at h
  rcases h with ((rfl | rfl) | rfl) | rfl <;> decide

theorem wordchar_not_ws {c : Char} (h : isWordChar c = true) :
    isWS c = false := by
  by_cases hws : isWS c = true
  · rw [ws_not_word hws] at h
    cases h
  · exact Bool.eq_false_iff.mpr hws

theorem tokenize_nonword_front (pre cs : List Char)
    (h : ∀ c ∈ pre, isWordChar c = false) :
    tokenize (pre ++ cs) = pre.map Tok.other ++ tokenize cs := by
  induction pre with
  | nil => simp
  | cons c pre' ih =>
      rw [List.cons_append, tokenize_cons,
        ih (fun x hx => h x (List.mem_cons_of_mem _ hx))]
      unfold pushChar
      rw [if_neg (by rw [h c (List.mem_cons_self _ _)]; simp)]
      rfl

theorem tokenize_nonword_suffix (cs suf : List Char)
    (h : ∀ c ∈ suf, isWordChar c = false) :
    tokenize (cs ++ suf) = tokenize cs ++ suf.map Tok.other := by
  have htt : tokenize suf = suf.map Tok.other := by
    have h0 := tokenize_nonword_front suf [] h
    rw [List.append_nil, show tokenize ([] : List Char) = [] from rfl,
      List.append_nil] at h0
    exact h0
  rw [show tokenize (cs ++ suf) = (cs ++ suf).foldr pushChar [] from rfl,
    List.foldr_append,
    show suf.foldr pushChar [] = tokenize suf from rfl, htt]
  refine foldr_pushChar_append cs _ ?_
  cases suf with
  | nil => trivial
  | cons a suf' => trivial

theorem wordsOf_append (a b : List Tok) :
    wordsOf (a ++ b) = wordsOf a ++ wordsOf b :=
  List.filterMap_append a b _

theorem wordsOf_map_other (l : List Char) :
    wordsOf (l.map Tok.other) = [] := by
  induction l with
  | nil => rfl
  | cons c l ih => rw [List.map_cons, wordsOf_cons_other, ih]

theorem wordToks_nonword_front (pre cs : List Char)
    (h : ∀ c ∈ pre, isWordChar c = false) :
    wordToks (pre ++ cs) = wordToks cs := by
  unfold wordToks
  rw [tokenize_nonword_front pre cs h, wordsOf_append, wordsOf_map_other,
    List.nil_append]

theorem wordToks_nonword_suffix (cs suf : List Char)
    (h : ∀ c ∈ suf, isWordChar c = false) :
    wordToks (cs ++ suf) = wordToks cs := by
  unfold wordToks
  rw [tokenize_nonword_suffix cs suf h, wordsOf_append, wordsOf_map_other,
    List.append_nil]

theorem wordToks_dropWhileWS (cs : List Char) :
    wordToks (cs.dropWhile isWS) = wordToks cs := by
  conv_rhs => rw [← List.takeWhile_append_dropWhile (p := isWS) (l := cs)]
  rw [wordToks_nonword_front _ _
    (fun c hc => ws_not_word (List.mem_takeWhile_imp hc))]

theorem wordToks_pyStripL (cs : List Char) :
    wordToks (pyStripL cs) = wordToks cs := by
  unfold pyStripL
  have hsplit : cs.dropWhile isWS =
      ((cs.dropWhile isWS).reverse.dropWhile isWS).reverse ++
        ((cs.dropWhile isWS).reverse.takeWhile isWS).reverse := by
    have h0 := List.takeWhile_append_dropWhile (p := isWS)
      (l := (cs.dropWhile isWS).reverse)
    have h2 := congrArg List.reverse h0
    rw [List.reverse_append, List.reverse_reverse] at h2
    exact h2.symm
  have hz : wordToks (((cs.dropWhile isWS).reverse.dropWhile isWS).reverse) =
      wordToks (cs.dropWhile isWS) := by
    conv_rhs => rw [hsplit]
    rw [wordToks_nonword_suffix _ _
      (fun c hc => ws_not_word
        (List.mem_takeWhile_imp (List.mem_reverse.mp hc)))]
  rw [hz, wordToks_dropWhileWS]

theorem pushChar_other_eq {c : Char} (hc : isWordChar c = false)
    (ts : List Tok) : pushChar c ts = Tok.other c :: ts := by
  unfold pushChar
  rw [if_neg (by rw [hc]; simp)]

theorem pushChar_mTok (c : Char) (ts : List Tok) :
    pushChar (if isWS c then ' ' else c) (ts.map mTok) =
      (pushChar c ts).map mTok := by
  by_cases hws : isWS c = true
  · rw [if_pos hws]
    have hcw : isWordChar c = false := ws_not_word hws
    rw [pushChar_other_eq (show isWordChar ' ' = false from by decide),
      pushChar_other_eq hcw, List.map_cons]
    show _ = Tok.other (if isWS c then ' ' else c) :: _
    rw [if_pos hws]
  · rw [if_neg hws]
    by_cases hc : isWordChar c = true
    · unfold pushChar
      rw [if_pos hc, if_pos hc]
      cases ts with
      | nil => rfl
      | cons t rest =>
          cases t with
          | word w => rfl
          | other o => rfl
    · have hcf : isWordChar c = false := Bool.eq_false_iff.mpr hc
      rw [pushChar_other_eq hcf, pushChar_other_eq hcf, List.map_cons]
      show _ = Tok.other (if isWS c then ' ' else c) :: _
      rw [if_neg hws]

theorem tokenize_spaceify (cs : List Char) :
    tokenize (spaceify cs) = (tokenize cs).map mTok := by
  induction cs with
  | nil => rfl
  | cons c cs ih =>
      rw [show spaceify (c :: cs) =
          (if isWS c then ' ' else c) :: spaceify cs from rfl,
        tokenize_cons, ih, tokenize_cons]
      exact pushChar_mTok c (tokenize cs)

theorem wordsOf_map_mTok (ts : List Tok) :
    wordsOf (ts.map mTok) = wordsOf ts := by
  induction ts with
  | nil => rfl
  | cons t rest ih =>
      cases t with
      | word w =>
          rw [List.map_cons, show mTok (Tok.word w) = Tok.word w from rfl,
            wordsOf_cons_word, wordsOf_cons_word, ih]
      | other c =>
          rw [List.map_cons, show mTok (Tok.other c) =
            Tok.other (if isWS c then ' ' else c) from rfl,
            wordsOf_cons_other, wordsOf_cons_other, ih]

theorem wordToks_spaceify (cs : List Char) :
    wordToks (spaceify cs) = wordToks cs := by
  unfold wordToks
  rw [tokenize_spaceify, wordsOf_map_mTok]

theorem hwT_pushChar_word {c : Char} (hc : isWordChar c = true)
    (ts : List Tok) :
    hwT (pushChar c ts) = some
      (match hwT ts with
       | some w => c :: w
       | none => [c]) := by
  unfold pushChar
  rw [if_pos hc]
  cases ts with
  | nil => rfl
  | cons t rest =>
      cases t with
      | word w => rfl
      | other o => rfl

theorem hwT_pushChar_other {c : Char} (hc : isWordChar c = false)
    (ts : List Tok) : hwT (pushChar c ts) = none := by
  unfold pushChar
  rw [if_neg (by rw [hc]; simp)]
  rfl

theorem wordsOf_pushChar_word {c : Char} (hc : isWordChar c = true)
    (ts : List Tok) :
    wordsOf (pushChar c ts) =
      (match hwT ts with
       | some w => (c :: w) :: (wordsOf ts).tail
       | none => [c] :: wordsOf ts) := by
  unfold pushChar
  rw [if_pos hc]
  cases ts with
  | nil => rfl
  | cons t rest =>
      cases t with
      | word w => rfl
      | other o => rfl

theorem wordsOf_pushChar_other {c : Char} (hc : isWordChar c = false)
    (ts : List Tok) : wordsOf (pushChar c ts) = wordsOf ts := by
  unfold pushChar
  rw [if_neg (by rw [hc]; simp)]
  rfl

theorem dedupSpace_head (cs : List Char) :
    (dedupSpace cs).head? = cs.head? := by
  induction cs with
  | nil => rfl
  | cons c cs ih =>
      unfold dedupSpace
      by_cases hbr : c = ' ' ∧ cs.head? = some ' '
      · rw [if_pos hbr, ih, hbr.2, hbr.1]
        rfl
      · rw [if_neg hbr]
        rfl

theorem dedupSpace_words_hw (cs : List Char) :
    wordToks (dedupSpace cs) = wordToks cs ∧
      hwL (dedupSpace cs) = hwL cs := by
  induction cs with
  | nil => exact ⟨rfl, rfl⟩
  | cons c cs ih =>
      unfold dedupSpace
      by_cases hbr : c = ' ' ∧ cs.head? = some ' '
      · rw [if_pos hbr]
        obtain ⟨rfl, hh⟩ := hbr
        constructor
        · rw [ih.1]
          show wordsOf (tokenize cs) = wordsOf (tokenize (' ' :: cs))
          rw [tokenize_cons, wordsOf_pushChar_other (by decide)]
        · rw [ih.2]
          show hwT (tokenize cs) = hwT (tokenize (' ' :: cs))
          rw [tokenize_cons, hwT_pushChar_other (by decide)]
          cases cs with
          | nil => cases hh
          | cons d cs' =>
              simp only [List.head?_cons, Option.some.injEq] at hh
              rw [hh, tokenize_cons, hwT_pushChar_other (by decide)]
      · rw [if_neg hbr]
        have h1 : wordsOf (tokenize (dedupSpace cs)) =
            wordsOf (tokenize cs) := ih.1
        have h2 : hwT (tokenize (dedupSpace cs)) = hwT (tokenize cs) := ih.2
        by_cases hc : isWordChar c = true
        · constructor
          · show wordsOf (tokenize (c :: dedupSpace cs)) =
              wordsOf (tokenize (c :: cs))
            rw [tokenize_cons, tokenize_cons, wordsOf_pushChar_word hc,
              wordsOf_pushChar_word hc, h1, h2]
          · show hwT (tokenize (c :: dedupSpace cs)) =
              hwT (tokenize (c :: cs))
            rw [tokenize_cons, tokenize_cons, hwT_pushChar_word hc,
              hwT_pushChar_word hc, h2]
        · have hfc : isWordChar c = false := Bool.eq_false_iff.mpr hc
          constructor
          · show wordsOf (tokenize (c :: dedupSpace cs)) =
              wordsOf (tokenize (c :: cs))
            rw [tokenize_cons, tokenize_cons, wordsOf_pushChar_other hfc,
              wordsOf_pushChar_other hfc, h1]
          · show hwT (tokenize (c :: dedupSpace cs)) =
              hwT (tokenize (c :: cs))
            rw [tokenize_cons, tokenize_cons, hwT_pushChar_other hfc,
              hwT_pushChar_other hfc]

theorem wordToks_collapseWS (cs : List Char) :
    wordToks (collapseWS cs) = wordToks cs := by
  unfold collapseWS
  rw [(dedupSpace_words_hw (spaceify cs)).1, wordToks_spaceify]

theorem cleanupPass_cons (w : List Char) (ws : List (List Char))
    (cs : List Char) :
    cleanupPass (w :: ws) cs = cleanupPass ws (pyStripL (removeWordCS w cs)) :=
  rfl

theorem cleanupPass_words (ws : List (List Char)) :
    ∀ cs, wordToks (cleanupPass ws cs) =
      ws.foldl (fun l w => List.filter (fun u => !(lowerL u == w)) l)
        (wordToks cs) := by
  induction ws with
  | nil => intro cs; rfl
  | cons w ws ih =>
      intro cs
      rw [cleanupPass_cons, ih, List.foldl_cons, wordToks_pyStripL,
        removeWordCS_wordToks]

theorem mem_foldl_filter (ws : List (List Char)) :
    ∀ init u,
      u ∈ ws.foldl (fun l w => List.filter (fun v => !(lowerL v == w)) l) init →
        u ∈ init := by
  induction ws with
  | nil => intro init u h; exact h
  | cons w ws ih =>
      intro init u h
      rw [List.foldl_cons] at h
      exact List.mem_of_mem_filter (ih _ u h)

theorem foldl_filter_prop (ws : List (List Char)) :
    ∀ init u,
      u ∈ ws.foldl (fun l w => List.filter (fun v => !(lowerL v == w)) l) init →
        ∀ w ∈ ws, (lowerL u == w) = false := by
  induction ws with
  | nil => intro init u _ w hw; cases hw
  | cons w0 ws ih =>
      intro init u h w hw
      rw [List.foldl_cons] at h
      rcases List.mem_cons.mp hw with rfl | hw'
      · have hmem : u ∈ List.filter (fun v => !(lowerL v == w)) init :=
          mem_foldl_filter ws _ u h
        have := (List.mem_filter.mp hmem).2
        simpa using this
      · exact ih _ u h w hw'

theorem removeWordCS_noop {w : List Char} {cs : List Char}
    (h : ∀ u ∈ wordToks cs, (lowerL u == w) = false) :
    removeWordCS w cs = cs := by
  unfold removeWordCS
  have hfix : (tokenize cs).filter (keepTok w) = tokenize cs := by
    rw [List.filter_eq_self]
    intro t ht
    cases t with
    | other c => rfl
    | word u =>
        show (!(lowerL u == w)) = true
        rw [h u (List.mem_filterMap.mpr ⟨Tok.word u, ht, rfl⟩)]
        rfl
  rw [hfix, detok_tokenize]

theorem dropWhile_head_not {p : Char → Bool} :
    ∀ (l : List Char) (c : Char),
      (l.dropWhile p).head? = some c → p c = false := by
  intro l
  induction l with
  | nil => intro c h; cases h
  | cons a t ih =>
      intro c h
      rw [List.dropWhile_cons] at h
      by_cases hp : p a = true
      · rw [if_pos hp] at h
        exact ih c h
      · rw [if_neg hp] at h
        simp only [List.head?_cons, Option.some.injEq] at h
        rw [← h]
        exact Bool.eq_false_iff.mpr hp

theorem pyStripL_head (cs : List Char) :
    ∀ c, (pyStripL cs).head? = some c → isWS c = false := by
  intro c h
  unfold pyStripL at h
  rw [List.head?_reverse] at h
  have hsp := List.takeWhile_append_dropWhile (p := isWS)
    (l := (cs.dropWhile isWS).reverse)
  have hlast : (cs.dropWhile isWS).reverse.getLast? = some c := by
    rw [← hsp, List.getLast?_append, h]
    rfl
  rw [List.getLast?_reverse] at hlast
  exact dropWhile_head_not cs c hlast

theorem pyStripL_last (cs : List Char) :
    ∀ c, (pyStripL cs).getLast? = some c → isWS c = false := by
  intro c h
  unfold pyStripL at h
  rw [List.getLast?_reverse] at h
  exact dropWhile_head_not _ c h

theorem pyStripL_idem (cs : List Char) :
    pyStripL (pyStripL cs) = pyStripL cs :=
  pyStripL_no_edge_ws _ (pyStripL_head cs) (pyStripL_last cs)

theorem mem_dedupSpace (l : List Char) : ∀ c ∈ dedupSpace l, c ∈ l := by
  induction l with
  | nil => intro c h; cases h
  | cons a t ih =>
      intro c h
      unfold dedupSpace at h
      by_cases hbr : a = ' ' ∧ t.head? = some ' '
      · rw [if_pos hbr] at h
        exact List.mem_cons_of_mem _ (ih c h)
      · rw [if_neg hbr] at h
        rcases List.mem_cons.mp h with rfl | h'
        · exact List.mem_cons_self _ _
        · exact List.mem_cons_of_mem _ (ih c h')

theorem dedupSpace_chain (l : List Char) :
    List.Chain' (fun a b => ¬(a = ' ' ∧ b = ' ')) (dedupSpace l) := by
  induction l with
  | nil => simp [dedupSpace]
  | cons a t ih =>
      unfold dedupSpace
      by_cases hbr : a = ' ' ∧ t.head? = some ' '
      · rw [if_pos hbr]
        exact ih
      · rw [if_neg hbr, List.chain'_cons']
        refine ⟨?_, ih⟩
        intro y hy
        rw [dedupSpace_head, Option.mem_def] at hy
        intro hco
        apply hbr
        refine ⟨hco.1, ?_⟩
        rw [hco.2] at hy
        exact hy

theorem collapseWS_collapsed (cs : List Char) : CollapsedP (collapseWS cs) := by
  constructor
  · intro c hc hws
    unfold collapseWS at hc
    have hc' := mem_dedupSpace _ c hc
    unfold spaceify at hc'
    rcases List.mem_map.mp hc' with ⟨d, -, hd⟩
    by_cases hwd : isWS d = true
    · rw [if_pos hwd] at hd
      exact hd.symm
    · rw [if_neg hwd] at hd
      rw [← hd] at hws
      exact absurd hws hwd
  · exact dedupSpace_chain _

theorem collapsedP_pyStripL {l : List Char} (h : CollapsedP l) :
    CollapsedP (pyStripL l) := by
  obtain ⟨hmem, hchain⟩ := h
  constructor
  · intro c hc hws
    refine hmem c ?_ hws
    unfold pyStripL at hc
    rw [List.mem_reverse] at hc
    have h1 := (List.dropWhile_suffix (l := (l.dropWhile isWS).reverse)
      isWS).subset hc
    rw [List.mem_reverse] at h1
    exact (List.dropWhile_suffix isWS).subset h1
  · unfold pyStripL
    have symmR : ∀ {m : List Char},
        List.Chain' (fun a b => ¬(a = ' ' ∧ b = ' ')) m →
        List.Chain' (fun a b => ¬(a = ' ' ∧ b = ' ')) m.reverse := by
      intro m hm
      rw [List.chain'_reverse]
      exact List.Chain'.imp (fun a b hab hco => hab ⟨hco.2, hco.1⟩) hm
    exact symmR ((symmR (hchain.suffix
      (List.dropWhile_suffix isWS))).suffix (List.dropWhile_suffix isWS))

theorem dedupSpace_noop :
    ∀ l, List.Chain' (fun a b => ¬(a = ' ' ∧ b = ' ')) l →
      dedupSpace l = l := by
  intro l
  induction l with
  | nil => intro _; rfl
  | cons a t ih =>
      intro hchain
      rw [List.chain'_cons'] at hchain
      unfold dedupSpace
      have hng : ¬(a = ' ' ∧ t.head? = some ' ') := by
        intro hco
        exact hchain.1 ' ' (by rw [hco.2]; rfl) ⟨hco.1, rfl⟩
      rw [if_neg hng, ih hchain.2]

theorem collapseWS_noop {l : List Char} (h : CollapsedP l) :
    collapseWS l = l := by
  obtain ⟨hmem, hchain⟩ := h
  unfold collapseWS
  have hsp : spaceify l = l := by
    unfold spaceify
    rw [List.map_congr_left (g := id) ?_, List.map_id]
    intro c hc
    by_cases hws : isWS c = true
    · rw [if_pos hws]
      exact (hmem c hc hws).symm
    · rw [if_neg hws]
      rfl
  rw [hsp]
  exact dedupSpace_noop l hchain

theorem cleanupPass_noop (ws : List (List Char)) :
    ∀ r, (∀ u ∈ wordToks r, ∀ w ∈ ws, (lowerL u == w) = false) →
      pyStripL r = r → cleanupPass ws r = r := by
  induction ws with
  | nil => intro r _ _; rfl
  | cons w ws ih =>
      intro r hws hstr
      rw [cleanupPass_cons,
        removeWordCS_noop (fun u hu => hws u hu w (List.mem_cons_self _ _)),
        hstr]
      exact ih r (fun u hu w' hw' => hws u hu w' (List.mem_cons_of_mem _ hw'))
        hstr

/-- One cleaned capture is a fixed point of the whole cleanup. -/
theorem cleanCaptured_idem (ws : List (List Char)) (s : List Char) :
    cleanCaptured ws (cleanCaptured ws s) = cleanCaptured ws s := by
  have hwords : ∀ u ∈ wordToks (cleanCaptured ws s), ∀ w ∈ ws,
      (lowerL u == w) = false := by
    intro u hu w hw
    unfold cleanCaptured at hu
    rw [wordToks_pyStripL, wordToks_collapseWS, cleanupPass_words] at hu
    exact foldl_filter_prop ws _ u hu w hw
  have hstr : pyStripL (cleanCaptured ws s) = cleanCaptured ws s := by
    unfold cleanCaptured
    exact pyStripL_idem _
  have hcoll : collapseWS (cleanCaptured ws s) = cleanCaptured ws s := by
    unfold cleanCaptured
    exact collapseWS_noop (collapsedP_pyStripL (collapseWS_collapsed _))
  show pyStripL (collapseWS (cleanupPass ws (cleanCaptured ws s))) = _
  rw [cleanupPass_noop ws _ hwords hstr, hcoll, hstr]

/-- Claim C9: the stop-word stripping applied to captured song and artist
substrings (whole-word, case-insensitive removal of the fixed stop-word
set with interleaved strips, followed by whitespace collapsing and a final
strip) is idempotent, for both of the source's stop-word lists. -/
theorem cleanup_idempotent :
    (∀ s, cleanCaptured cleanupWordsA (cleanCaptured cleanupWordsA s) =
      cleanCaptured cleanupWordsA s) ∧
    (∀ s, cleanCaptured cleanupWordsB (cleanCaptured cleanupWordsB s) =
      cleanCaptured cleanupWordsB s) :=
  ⟨fun s => cleanCaptured_idem cleanupWordsA s,
   fun s => cleanCaptured_idem cleanupWordsB s⟩

end Chartbot
